import Mathlib

/-!
Verification development for the NovaEdit terminal text editor
(src/NovaEdit.py).  The Python source is shallowly embedded: rows,
the editor session state, the highlighter and every edit command are
translated into executable Lean definitions, and the testable
properties of the specification are proved (or refuted) about them.

Naming: Lean identifiers mirror the Python names except that the word
"syntax" is replaced ("EditorSyntax" becomes "LangDef",
"E.current_syntax" becomes "current_lang", "get_syntax_highlighting"
becomes "get_highlighting", "EditorRow.update_syntax" becomes
"updateHlAt") and strings are modelled as List Char.  Wall-clock
fields (status_message_time) and the raw terminal I/O layer are not
modelled; file I/O is modelled by passing the outcome of the read as
a value.  Python exceptions (TypeError / IndexError) are modelled
with Except String.
-/

set_option maxRecDepth 100000

namespace NovaEdit

/-- Highlight category constants, from the top of NovaEdit.py. -/
def HL_NORMAL : Nat := 0

/-- HL_NONPRINT = 1 in the source. -/
def HL_NONPRINT : Nat := 1

/-- HL_COMMENT = 2 in the source. -/
def HL_COMMENT : Nat := 2

/-- HL_MLCOMMENT = 3 in the source. -/
def HL_MLCOMMENT : Nat := 3

/-- HL_KEYWORD1 = 4 in the source. -/
def HL_KEYWORD1 : Nat := 4

/-- HL_KEYWORD2 = 5 in the source. -/
def HL_KEYWORD2 : Nat := 5

/-- HL_STRING = 6 in the source. -/
def HL_STRING : Nat := 6

/-- HL_NUMBER = 7 in the source. -/
def HL_NUMBER : Nat := 7

/-- HL_HIGHLIGHT_STRINGS flag (1 << 0). -/
def HL_HIGHLIGHT_STRINGS : Nat := 1

/-- HL_HIGHLIGHT_NUMBERS flag (1 << 1). -/
def HL_HIGHLIGHT_NUMBERS : Nat := 2

/-- Characters written via code points so that the file contains no
quote or backslash character literals. -/
def quoteD : Char := Char.ofNat 34

/-- Single quote character. -/
def quoteS : Char := Char.ofNat 39

/-- Backslash character. -/
def backslashC : Char := Char.ofNat 92

/-- Tab character. -/
def tabC : Char := Char.ofNat 9

/-- Newline character. -/
def nlC : Char := Char.ofNat 10

/-- NUL character. -/
def nulC : Char := Char.ofNat 0

/-- Shorthand turning a string literal into the List Char used by the model. -/
def sl (s : String) : List Char := s.toList

/-- Models class EditorSyntax (renamed LangDef): a language definition from
the static table. -/
structure LangDef where
  file_extensions : List (List Char)
  keywords : List (List Char)
  singleline_comment_start : List Char
  multiline_comment_start : List Char
  multiline_comment_end : List Char
  flags : Nat
deriving DecidableEq, Repr

/-- C_EXTENSIONS from the source. -/
def C_EXTENSIONS : List (List Char) :=
  [sl ".c", sl ".h", sl ".cpp", sl ".hpp", sl ".cc"]

/-- C_KEYWORDS from the source (a trailing pipe marks a secondary keyword). -/
def C_KEYWORDS : List (List Char) :=
  [sl "auto", sl "break", sl "case", sl "continue", sl "default", sl "do", sl "else", sl "enum",
   sl "extern", sl "for", sl "goto", sl "if", sl "register", sl "return", sl "sizeof", sl "static",
   sl "struct", sl "switch", sl "typedef", sl "union", sl "volatile", sl "while", sl "NULL",
   sl "alignas", sl "alignof", sl "and", sl "and_eq", sl "asm", sl "bitand", sl "bitor", sl "class",
   sl "compl", sl "constexpr", sl "const_cast", sl "deltype", sl "delete", sl "dynamic_cast",
   sl "explicit", sl "export", sl "false", sl "friend", sl "inline", sl "mutable", sl "namespace",
   sl "new", sl "noexcept", sl "not", sl "not_eq", sl "nullptr", sl "operator", sl "or", sl "or_eq",
   sl "private", sl "protected", sl "public", sl "reinterpret_cast", sl "static_assert",
   sl "static_cast", sl "template", sl "this", sl "thread_local", sl "throw", sl "true", sl "try",
   sl "typeid", sl "typename", sl "virtual", sl "xor", sl "xor_eq",
   sl "int|", sl "long|", sl "double|", sl "float|", sl "char|", sl "unsigned|", sl "signed|",
   sl "void|", sl "short|", sl "auto|", sl "const|", sl "bool|"]

/-- CLIKE_EXTENSIONS from the source. -/
def CLIKE_EXTENSIONS : List (List Char) := [sl ".clike"]

/-- CLIKE_KEYWORDS from the source. -/
def CLIKE_KEYWORDS : List (List Char) :=
  [sl "if", sl "else", sl "while", sl "for", sl "return", sl "print",
   sl "int|", sl "float|", sl "void|", sl "char|", sl "string|"]

/-- JS_EXTENSIONS from the source. -/
def JS_EXTENSIONS : List (List Char) := [sl ".js"]

/-- JS_KEYWORDS from the source. -/
def JS_KEYWORDS : List (List Char) :=
  [sl "function", sl "var", sl "let", sl "const", sl "if", sl "else", sl "switch", sl "case",
   sl "default", sl "for", sl "while", sl "do", sl "break", sl "continue", sl "return", sl "try",
   sl "catch", sl "throw", sl "new", sl "this", sl "typeof", sl "instanceof", sl "true", sl "false",
   sl "null", sl "undefined",
   sl "Number|", sl "String|", sl "Boolean|", sl "Object|", sl "Array|", sl "Function|"]

/-- PY_EXTENSIONS from the source. -/
def PY_EXTENSIONS : List (List Char) := [sl ".py"]

/-- PY_KEYWORDS from the source. -/
def PY_KEYWORDS : List (List Char) :=
  [sl "and", sl "as", sl "assert", sl "break", sl "class", sl "continue", sl "def", sl "del",
   sl "elif", sl "else", sl "except", sl "finally", sl "for", sl "from", sl "global", sl "if",
   sl "import", sl "in", sl "is", sl "lambda", sl "nonlocal", sl "not", sl "or", sl "pass",
   sl "raise", sl "return", sl "try", sl "while", sl "with", sl "yield",
   sl "True|", sl "False|", sl "None|"]

/-- The C language definition (first entry of SYNTAX_DB). -/
def C_LANG : LangDef :=
  ⟨C_EXTENSIONS, C_KEYWORDS, sl "//", sl "/*", sl "*/",
   HL_HIGHLIGHT_STRINGS ||| HL_HIGHLIGHT_NUMBERS⟩

/-- The clike language definition (second entry of SYNTAX_DB). -/
def CLIKE_LANG : LangDef :=
  ⟨CLIKE_EXTENSIONS, CLIKE_KEYWORDS, sl "//", sl "/*", sl "*/",
   HL_HIGHLIGHT_STRINGS ||| HL_HIGHLIGHT_NUMBERS⟩

/-- The JavaScript language definition (third entry of SYNTAX_DB). -/
def JS_LANG : LangDef :=
  ⟨JS_EXTENSIONS, JS_KEYWORDS, sl "//", sl "/*", sl "*/",
   HL_HIGHLIGHT_STRINGS ||| HL_HIGHLIGHT_NUMBERS⟩

/-- The Python language definition (fourth entry of SYNTAX_DB), with empty
multi-line comment markers. -/
def PY_LANG : LangDef :=
  ⟨PY_EXTENSIONS, PY_KEYWORDS, sl "#", [], [],
   HL_HIGHLIGHT_STRINGS ||| HL_HIGHLIGHT_NUMBERS⟩

/-- Models SYNTAX_DB (the static language table, in table order). -/
def LANG_DB : List LangDef := [C_LANG, CLIKE_LANG, JS_LANG, PY_LANG]

/-- Models is_separator: NUL, whitespace (Python str.isspace on the ASCII
range), or one of the fixed punctuation characters. -/
def is_separator (ch : Char) : Bool :=
  ch = nulC ∨ ch = ' ' ∨ ch = tabC ∨ ch = nlC ∨ ch = Char.ofNat 13 ∨
  ch = Char.ofNat 11 ∨ ch = Char.ofNat 12 ∨ ch ∈ sl ",.()+-/*=~%[];"

/-- Models Python line.startswith(pre, i): the slice of line beginning at
index i starts with pre. -/
def startsWithAt (line pre : List Char) (i : Nat) : Bool :=
  (line.drop i).take pre.length = pre

/-- Assign v to highlight positions i, i+1, ..., i+len-1 (the unguarded
Python loop for j in range(len): highlight[i+j] = v). -/
def setRange (hl : List Nat) (i len v : Nat) : List Nat :=
  (List.range len).foldl (fun h j => h.set (i + j) v) hl

/-- Assign v to highlight positions i..i+len-1 that are below bound (the
guarded Python loop: if i + j < len(line)). -/
def setRangeClamped (hl : List Nat) (i len v bound : Nat) : List Nat :=
  (List.range len).foldl (fun h j => if i + j < bound then h.set (i + j) v else h) hl

/-- Assign v to every highlight position from i to the end of the line
(the single-line-comment loop for j in range(i, len(line))). -/
def setFrom (hl : List Nat) (i v bound : Nat) : List Nat :=
  (List.range (bound - i)).foldl (fun h j => h.set (i + j) v) hl

/-- Models the keyword-matching loop inside get_syntax_highlighting: the
first keyword whose text matches at i with a separator (or end of line)
after it; returns its effective length and highlight class. -/
def kwMatch (line : List Char) (i : Nat) : List (List Char) → Option (Nat × Nat)
  | [] => none
  | kw :: rest =>
    let kw2 := kw.getLast? = some '|'
    let klen := if kw2 then kw.length - 1 else kw.length
    if (line.drop i).take klen = kw.take klen ∧
       (i + klen ≥ line.length ∨ is_separator (line.getD (i + klen) nulC)) then
      some (klen, if kw2 then HL_KEYWORD2 else HL_KEYWORD1)
    else kwMatch line i rest

/-- Models the while loop of get_syntax_highlighting.  The scanner state is
(highlight array, index i, prev_sep, in_string, in_comment); fuel bounds the
iteration count (the callers pass line.length + 1, which is sufficient since
every iteration of the source loop advances i by at least one for every
language in the table). -/
def scanLoop (line : List Char) (keywords : List (List Char))
    (scs mcs mce : List Char) :
    Nat → List Nat → Nat → Bool → Option Char → Bool → List Nat × Bool
  | 0, hl, _, _, _, in_comment => (hl, in_comment)
  | fuel + 1, hl, i, prev_sep, in_string, in_comment =>
    if i < line.length then
      let ch := line.getD i nulC
      if scs ≠ [] ∧ in_string = none ∧ in_comment = false ∧ startsWithAt line scs i then
        (setFrom hl i HL_COMMENT line.length, false)
      else if in_comment then
        let hl := hl.set i HL_MLCOMMENT
        if mce ≠ [] ∧ startsWithAt line mce i then
          let hl := setRangeClamped hl i mce.length HL_MLCOMMENT line.length
          scanLoop line keywords scs mcs mce fuel hl (i + mce.length) true in_string false
        else
          scanLoop line keywords scs mcs mce fuel hl (i + 1) false in_string true
      else if mcs ≠ [] ∧ startsWithAt line mcs i then
        let hl := setRangeClamped hl i mcs.length HL_MLCOMMENT line.length
        scanLoop line keywords scs mcs mce fuel hl (i + mcs.length) false in_string true
      else
        match in_string with
        | some q =>
          let hl := hl.set i HL_STRING
          if ch = backslashC ∧ i + 1 < line.length then
            scanLoop line keywords scs mcs mce fuel (hl.set (i + 1) HL_STRING) (i + 2)
              false (some q) in_comment
          else
            scanLoop line keywords scs mcs mce fuel hl (i + 1) prev_sep
              (if ch = q then none else some q) in_comment
        | none =>
          if ch = quoteD ∨ ch = quoteS then
            scanLoop line keywords scs mcs mce fuel (hl.set i HL_STRING) (i + 1)
              false (some ch) in_comment
          else if (ch.isDigit ∧ (prev_sep ∨ (i > 0 ∧ hl.getD (i - 1) HL_NORMAL = HL_NUMBER))) ∨
                  (ch = '.' ∧ i > 0 ∧ hl.getD (i - 1) HL_NORMAL = HL_NUMBER) then
            scanLoop line keywords scs mcs mce fuel (hl.set i HL_NUMBER) (i + 1)
              false in_string in_comment
          else
            match (if prev_sep then kwMatch line i keywords else none) with
            | some (klen, ht) =>
              scanLoop line keywords scs mcs mce fuel (setRange hl i klen ht) (i + klen)
                false in_string in_comment
            | none =>
              scanLoop line keywords scs mcs mce fuel hl (i + 1) (is_separator ch)
                in_string in_comment
    else (hl, in_comment)

/-- Models get_syntax_highlighting(line, syntax, prev_open_comment): returns
the per-character highlight classes and the carried-out open-comment flag. -/
def get_highlighting (line : List Char) (lang : Option LangDef)
    (prev_open_comment : Bool) : List Nat × Bool :=
  match lang with
  | none => (List.replicate line.length HL_NORMAL, false)
  | some sy =>
    scanLoop line sy.keywords sy.singleline_comment_start sy.multiline_comment_start
      sy.multiline_comment_end (line.length + 1) (List.replicate line.length HL_NORMAL)
      0 true none prev_open_comment

/-- Models Python str.endswith for the extension match. -/
def strEndsWith (s suffix : List Char) : Bool :=
  s.drop (s.length - suffix.length) = suffix ∧ suffix.length ≤ s.length

/-- Models select_syntax_highlight(file_name): the first language in table
order one of whose extensions is a suffix of the file name; None disables
highlighting. -/
def select_lang_highlight (file_name : Option (List Char)) : Option LangDef :=
  match file_name with
  | none => none
  | some name => LANG_DB.find? (fun sy => sy.file_extensions.any (fun e => strEndsWith name e))

/-- Models EditorRow.update_rendered content processing:
content.replace(tab, 8 spaces). -/
def renderContent : List Char → List Char
  | [] => []
  | c :: cs => (if c = tabC then List.replicate 8 ' ' else [c]) ++ renderContent cs

/-- Models class EditorRow: index, raw content, the stored content_size,
the rendered (tab-expanded) form and its stored size, the highlight array
and the open_comment carry flag. -/
structure ERow where
  index : Nat
  content : List Char
  content_size : Nat
  rendered_content : List Char
  rendered_size : Nat
  highlight : List Nat
  open_comment : Bool
deriving DecidableEq, Repr

/-- Models EditorRow.has_open_comment: the row's last rendered character is
classified block-comment and the rendered text does not end with the two
characters * /. -/
def hasOpenComment (row : ERow) : Bool :=
  if row.highlight ≠ [] ∧ row.rendered_size ≠ 0 ∧ row.highlight.getLast? = some HL_MLCOMMENT then
    if row.rendered_size < 2 ∨
       ¬(row.rendered_content.getD (row.rendered_size - 2) nulC = '*' ∧
         row.rendered_content.getD (row.rendered_size - 1) nulC = '/') then
      true
    else false
  else false

/-- Models the loop body of get_rendered_col: walk the first c raw
characters (clamped to the content length, as the Python range(min(...))
does), a tab advancing the rendered column to the next multiple of 8 and
any other character advancing it by one. -/
def grcAux : List Char → Nat → Nat → Nat
  | _, 0, r => r
  | [], _ + 1, r => r
  | ch :: rest, c + 1, r => grcAux rest c (r + (if ch = tabC then 8 - r % 8 else 1))

/-- Models get_rendered_col(row, content_col). -/
def get_rendered_col (row : ERow) (content_col : Nat) : Nat :=
  grcAux row.content content_col 0

/-- Models the while loop of get_content_col.  The loop is bounded by the
row's stored content_size (not by the length of content); reading a
character past the end of content is the IndexError the Python code would
raise there.  The first argument is fuel: every iteration increments cc
and the loop stops once cc reaches content_size, so the caller's
content_size + 1 can never run out. -/
def gccLoop (content : List Char) (content_size target : Nat) :
    Nat → Nat → Nat → Except String Nat
  | 0, cc, _ => .ok cc
  | fuel + 1, cc, r =>
    if cc < content_size ∧ r < target then
      match content[cc]? with
      | none => .error "IndexError"
      | some ch =>
        if ch = tabC then
          if r + (8 - r % 8) > target then .ok cc
          else gccLoop content content_size target fuel (cc + 1) (r + (8 - r % 8))
        else gccLoop content content_size target fuel (cc + 1) (r + 1)
    else .ok cc

/-- Models get_content_col(row, rendered_col). -/
def get_content_col (row : ERow) (rendered_col : Nat) : Except String Nat :=
  gccLoop row.content row.content_size rendered_col (row.content_size + 1) 0 0

/-- Models an undo/redo snapshot: the tuple
(rows contents, cursor_x, cursor_y, col_offset, row_offset)
as pushed by save_undo_state. -/
structure Snap where
  rowsContents : List (List Char)
  cx : Nat
  cy : Nat
  coff : Nat
  roff : Nat
deriving DecidableEq, Repr

/-- Models class EditorState (the global E).  status_message_time is not
modelled (wall clock); screen dimensions carry the values the constructor
would pick.  Status messages keep only the fixed prefix of the Python
f-strings. -/
structure EState where
  cursor_x : Nat
  cursor_y : Nat
  row_offset : Nat
  col_offset : Nat
  screen_rows : Nat
  screen_cols : Nat
  total_rows : Nat
  rows : List ERow
  modified : Nat
  file_name : Option (List Char)
  status_message : String
  current_lang : Option LangDef
  undo_stack : List Snap
  redo_stack : List Snap
  mark_x : Option Nat
  mark_y : Option Nat
  clipboard : List Char
deriving DecidableEq, Repr

/-- The initial EditorState, with the non-TTY fallback screen size
(80 columns, 24 rows). -/
def initState : EState :=
  { cursor_x := 0, cursor_y := 0, row_offset := 0, col_offset := 0,
    screen_rows := 24, screen_cols := 80, total_rows := 0, rows := [],
    modified := 0, file_name := none, status_message := "",
    current_lang := none, undo_stack := [], redo_stack := [],
    mark_x := none, mark_y := none, clipboard := [] }

/-- Models set_status_message (the timestamp is not modelled). -/
def set_status (s : EState) (msg : String) : EState :=
  { s with status_message := msg }

/-- Python list.insert(i, a): insert before position i, clamping to the
end of the list. -/
def listInsertAt (l : List α) (i : Nat) (a : α) : List α :=
  l.take i ++ [a] ++ l.drop i

/-- Models the renumbering loop of insert_editor_row
(for i in range(lo, hi): rows[i].index += 1); idx is the position of the
first element of the remaining list. -/
def bumpUp : List ERow → Nat → Nat → Nat → List ERow
  | [], _, _, _ => []
  | r :: rs, idx, lo, hi =>
    (if lo ≤ idx ∧ idx < hi then { r with index := r.index + 1 } else r) ::
      bumpUp rs (idx + 1) lo hi

/-- Models the renumbering loop of delete_editor_row
(for i in range(lo, hi): rows[i].index -= 1). -/
def bumpDown : List ERow → Nat → Nat → Nat → List ERow
  | [], _, _, _ => []
  | r :: rs, idx, lo, hi =>
    (if lo ≤ idx ∧ idx < hi then { r with index := r.index - 1 } else r) ::
      bumpDown rs (idx + 1) lo hi

/-- Models EditorRow.update_syntax (renamed updateHlAt) acting on the row
at index i of the document's row list: recompute the highlight array from
the previous row's has_open_comment carry, and if the row's stored
open_comment flag changed, recurse into the next row (the cross-row
propagation); total is E.total_rows at the time of the call. -/
def prevOpenAt (rows : List ERow) (i : Nat) : Bool :=
  decide (i > 0) &&
    (match rows[i - 1]? with
     | some r => hasOpenComment r
     | none => false)

/-- Fueled recursion behind EditorRow.update_syntax (see updateHlAt). -/
def updateHlAtF (lang : Option LangDef) (total : Nat) :
    Nat → List ERow → Nat → List ERow
  | 0, rows, _ => rows
  | fuel + 1, rows, i =>
    match rows[i]? with
    | none => rows
    | some row =>
      match lang with
      | none => rows.set i { row with highlight := List.replicate row.rendered_size HL_NORMAL }
      | some sy =>
        let res := get_highlighting row.rendered_content (some sy) (prevOpenAt rows i)
        let rows1 := rows.set i { row with highlight := res.1 }
        let rows2 :=
          if row.open_comment ≠ res.2 ∧ i + 1 < total then
            updateHlAtF lang total fuel rows1 (i + 1)
          else rows1
        match rows2[i]? with
        | some row2 => rows2.set i { row2 with open_comment := res.2 }
        | none => rows2

/-- Wrapper supplying the fuel: the propagation visits strictly increasing
indices below total, so total steps always suffice. -/
def updateHlAt (lang : Option LangDef) (total : Nat) (rows : List ERow) (i : Nat) :
    List ERow :=
  updateHlAtF lang total total rows i

/-- Models EditorRow.__init__ for a row about to be inserted at position
index: compute content/rendered fields and run update_syntax, which reads
the predecessor from the current (pre-insert) row list and may propagate
into the row currently at index+1 of that list; returns the new row and
the possibly-updated pre-insert row list. -/
def newRowInit (index : Nat) (content : List Char) (rows : List ERow)
    (total : Nat) (lang : Option LangDef) : ERow × List ERow :=
  let rendered := renderContent content
  let base : ERow :=
    { index := index, content := content, content_size := content.length,
      rendered_content := rendered, rendered_size := rendered.length,
      highlight := List.replicate rendered.length HL_NORMAL, open_comment := false }
  match lang with
  | none => (base, rows)
  | some sy =>
    let res := get_highlighting rendered (some sy) (prevOpenAt rows index)
    let rows' :=
      if res.2 ≠ false ∧ index + 1 < total then updateHlAt lang total rows (index + 1)
      else rows
    ({ base with highlight := res.1, open_comment := res.2 }, rows')

/-- Models EditorRow.update_rendered for the row at index i of the
document: recompute the rendered form and size, then update_syntax
(with its propagation). -/
def rowUpdateRendered (lang : Option LangDef) (total : Nat) (rows : List ERow)
    (i : Nat) : List ERow :=
  match rows[i]? with
  | none => rows
  | some row =>
    let rendered := renderContent row.content
    let rows1 := rows.set i
      { row with rendered_content := rendered, rendered_size := rendered.length }
    updateHlAt lang total rows1 i

/-- Models EditorRow.insert_char(position, ch) on the row at index i:
clamp the position to content_size, splice the character in, bump
content_size and re-render. -/
def rowInsertChar (lang : Option LangDef) (total : Nat) (rows : List ERow)
    (i pos : Nat) (ch : Char) : List ERow :=
  match rows[i]? with
  | none => rows
  | some row =>
    let pos := if pos > row.content_size then row.content_size else pos
    let rows1 := rows.set i
      { row with content := row.content.take pos ++ [ch] ++ row.content.drop pos,
                 content_size := row.content_size + 1 }
    rowUpdateRendered lang total rows1 i

/-- Models EditorRow.append_string(string) on the row at index i. -/
def rowAppendString (lang : Option LangDef) (total : Nat) (rows : List ERow)
    (i : Nat) (str : List Char) : List ERow :=
  match rows[i]? with
  | none => rows
  | some row =>
    let rows1 := rows.set i
      { row with content := row.content ++ str,
                 content_size := row.content_size + str.length }
    rowUpdateRendered lang total rows1 i

/-- Models EditorRow.delete_char(position) on the row at index i: a no-op
when position is at or past content_size, otherwise remove one character
and re-render. -/
def rowDeleteChar (lang : Option LangDef) (total : Nat) (rows : List ERow)
    (i pos : Nat) : List ERow :=
  match rows[i]? with
  | none => rows
  | some row =>
    if pos ≥ row.content_size then rows
    else
      let rows1 := rows.set i
        { row with content := row.content.take pos ++ row.content.drop (pos + 1),
                   content_size := row.content_size - 1 }
      rowUpdateRendered lang total rows1 i

/-- Models insert_editor_row(position, content): clamp the position,
construct the row (whose __init__ already runs highlighting against the
pre-insert list), insert it, renumber the following rows, bump total_rows
and set modified. -/
def insert_editor_row (s : EState) (position : Nat) (content : List Char) : EState :=
  let position := if position > s.total_rows then s.total_rows else position
  let init := newRowInit position content s.rows s.total_rows s.current_lang
  let rows1 := listInsertAt init.2 position init.1
  let rows2 := bumpUp rows1 0 (position + 1) (s.total_rows + 1)
  { s with rows := rows2, total_rows := s.total_rows + 1, modified := 1 }

/-- Models delete_editor_row(position): a no-op past the end, otherwise
remove the row, renumber the following rows, decrement total_rows and
set modified. -/
def delete_editor_row (s : EState) (position : Nat) : EState :=
  if position ≥ s.total_rows then s
  else
    let rows1 := s.rows.eraseIdx position
    let rows2 := bumpDown rows1 0 position (s.total_rows - 1)
    { s with rows := rows2, total_rows := s.total_rows - 1, modified := 1 }

/-- Models rows_to_string: row contents joined by newline with a trailing
newline appended. -/
def rows_to_string (s : EState) : List Char :=
  List.intercalate [nlC] (s.rows.map (fun r => r.content)) ++ [nlC]

/-- Python str.rstrip(newline): drop every trailing newline character. -/
def rstripNl (l : List Char) : List Char :=
  (l.reverse.dropWhile (fun c => c = nlC)).reverse

/-- Models the byte sequence written by save_file_terminal:
rows_to_string().rstrip(newline). -/
def save_content (s : EState) : List Char :=
  rstripNl (rows_to_string s)

/-- Models the snapshot expression
([row.content for row in E.rows], cursor_x, cursor_y, col_offset, row_offset). -/
def snapOf (s : EState) : Snap :=
  { rowsContents := s.rows.map (fun r => r.content), cx := s.cursor_x,
    cy := s.cursor_y, coff := s.col_offset, roff := s.row_offset }

/-- The stack effect of save_undo_state: append the snapshot and drop the
oldest entry if the stack exceeds 50. -/
def pushCapped (u : List Snap) (x : Snap) : List Snap :=
  let u1 := u ++ [x]
  if u1.length > 50 then u1.drop 1 else u1

/-- Models save_undo_state: push the current snapshot (capped at 50) and
clear the redo stack. -/
def save_undo_state (s : EState) : EState :=
  { s with undo_stack := pushCapped s.undo_stack (snapOf s), redo_stack := [] }

/-- Models the row-rebuild loop shared by undo and redo:
for content in rows_copy: insert_editor_row(E.total_rows, content). -/
def rebuildRows (s : EState) (cs : List (List Char)) : EState :=
  cs.foldl (fun t c => insert_editor_row t t.total_rows c) s

/-- Models undo(): no-op with a status message when the stack is empty;
otherwise push the current snapshot to redo, pop the newest undo snapshot,
rebuild the rows from it, restore cursor and offsets, and set modified. -/
def undo (s : EState) : EState :=
  if s.undo_stack = [] then set_status s "Nothing to undo"
  else
    match s.undo_stack.getLast? with
    | none => s
    | some snap =>
      let s1 := { s with redo_stack := s.redo_stack ++ [snapOf s],
                         undo_stack := s.undo_stack.dropLast,
                         rows := [], total_rows := 0 }
      let s2 := rebuildRows s1 snap.rowsContents
      { s2 with cursor_x := snap.cx, cursor_y := snap.cy, col_offset := snap.coff,
                row_offset := snap.roff, modified := 1,
                status_message := "Undo performed" }

/-- Models redo(): the mirror image of undo. -/
def redo (s : EState) : EState :=
  if s.redo_stack = [] then set_status s "Nothing to redo"
  else
    match s.redo_stack.getLast? with
    | none => s
    | some snap =>
      let s1 := { s with undo_stack := s.undo_stack ++ [snapOf s],
                         redo_stack := s.redo_stack.dropLast,
                         rows := [], total_rows := 0 }
      let s2 := rebuildRows s1 snap.rowsContents
      { s2 with cursor_x := snap.cx, cursor_y := snap.cy, col_offset := snap.coff,
                row_offset := snap.roff, modified := 1,
                status_message := "Redo performed" }

/-- Fetch E.rows[i]; running off the list is the IndexError the Python
indexing would raise. -/
def getRow (s : EState) (i : Nat) : Except String ERow :=
  match s.rows[i]? with
  | some r => .ok r
  | none => .error "IndexError"

/-- Models the while loop at the top of insert_char
(while E.total_rows <= file_row: insert_editor_row(E.total_rows, '')),
with fuel: each pass grows total_rows by one, so file_row + 1 passes
always suffice. -/
def padRowsF (file_row : Nat) : Nat → EState → EState
  | 0, s => s
  | fuel + 1, s =>
    if s.total_rows ≤ file_row then
      padRowsF file_row fuel (insert_editor_row s s.total_rows [])
    else s

/-- Wrapper supplying the fuel for padRowsF. -/
def padRows (s : EState) (file_row : Nat) : EState :=
  padRowsF file_row (file_row + 1) s

/-- Models insert_char(ch): push an undo snapshot, pad the document to the
cursor row, insert at the content position resolved from the rendered
cursor position, advance the cursor (scrolling at the right edge), set
modified and clear the mark. -/
def insert_char (ch : Char) (s0 : EState) : Except String EState := do
  let s := save_undo_state s0
  let file_row := s.row_offset + s.cursor_y
  let file_row := if file_row > s.total_rows then s.total_rows else file_row
  let s := padRows s file_row
  let row ← getRow s file_row
  let file_col ← get_content_col row (s.col_offset + s.cursor_x)
  let rows1 := rowInsertChar s.current_lang s.total_rows s.rows file_row file_col ch
  let cx1 := s.cursor_x + 1
  let scroll := cx1 = s.screen_cols
  .ok { s with rows := rows1,
               cursor_x := if scroll then cx1 - 1 else cx1,
               col_offset := if scroll then s.col_offset + 1 else s.col_offset,
               modified := 1, mark_x := none, mark_y := none }

/-- Models insert_newline(): push an undo snapshot; append an empty row
past the end, insert an empty row at column 0, or split the current row at
the resolved content column.  The split reassigns row.content without
updating content_size, exactly as the source does. -/
def insert_newline (s0 : EState) : Except String EState := do
  let s := save_undo_state s0
  let file_row := s.row_offset + s.cursor_y
  let s ←
    if s.total_rows ≤ file_row then .ok (insert_editor_row s file_row [])
    else do
      let row ← getRow s file_row
      let fc ← get_content_col row (s.col_offset + s.cursor_x)
      let file_col := if fc > row.content_size then row.content_size else fc
      if file_col = 0 then .ok (insert_editor_row s file_row [])
      else do
        let s := insert_editor_row s (file_row + 1) (row.content.drop file_col)
        let rows1 :=
          match s.rows[file_row]? with
          | some r => s.rows.set file_row { r with content := row.content.take file_col }
          | none => s.rows
        .ok { s with rows := rowUpdateRendered s.current_lang s.total_rows rows1 file_row }
  let lastLine := (s.cursor_y : Int) = (s.screen_rows : Int) - 1
  .ok { s with cursor_x := 0, col_offset := 0,
               row_offset := if lastLine then s.row_offset + 1 else s.row_offset,
               cursor_y := if lastLine then s.cursor_y else s.cursor_y + 1,
               mark_x := none, mark_y := none }

/-- Models delete_char() (backspace): push an undo snapshot; past the end
of the document it returns (with the snapshot already pushed); at rendered
column 0 of a non-first row it merges into the previous row; otherwise it
deletes the character before the cursor. -/
def delete_char (s0 : EState) : Except String EState := do
  let s := save_undo_state s0
  let file_row := s.row_offset + s.cursor_y
  if s.total_rows ≤ file_row then .ok s
  else do
    let row ← getRow s file_row
    let rendered_pos := s.col_offset + s.cursor_x
    if rendered_pos = 0 then
      if file_row = 0 then .ok s
      else do
        let prev_row ← getRow s (file_row - 1)
        let prev_len := prev_row.content_size
        let rows1 := rowAppendString s.current_lang s.total_rows s.rows (file_row - 1) row.content
        let s2 := delete_editor_row { s with rows := rows1 } file_row
        let roff := if s2.cursor_y = 0 then
            (if s2.row_offset > 0 then s2.row_offset - 1 else s2.row_offset)
          else s2.row_offset
        let cy := if s2.cursor_y = 0 then s2.cursor_y else s2.cursor_y - 1
        let prevNow ← getRow s2 (file_row - 1)
        let cx := get_rendered_col prevNow prev_len
        let wide := cx ≥ s2.screen_cols
        .ok { s2 with row_offset := roff, cursor_y := cy,
                      cursor_x := if wide then s2.screen_cols - 1 else cx,
                      col_offset := if wide then cx - s2.screen_cols + 1 else 0,
                      modified := 1, mark_x := none, mark_y := none }
    else do
      let position ← get_content_col row (rendered_pos - 1)
      let rows1 := rowDeleteChar s.current_lang s.total_rows s.rows file_row position
      let cx := if s.cursor_x > 0 then s.cursor_x - 1 else s.cursor_x
      let coff := if s.cursor_x > 0 then s.col_offset
        else (if s.col_offset > 0 then s.col_offset - 1 else s.col_offset)
      .ok { s with rows := rows1, cursor_x := cx, col_offset := coff,
                   modified := 1, mark_x := none, mark_y := none }

/-- Models the line-collection loop of copy_selection; ys enumerates the
rows of the selection from start_y to end_y. -/
def copyLines (s : EState) (start_y end_y start_x end_x : Nat) :
    Except String (List (List Char)) :=
  (List.range (end_y + 1 - start_y)).foldlM
    (fun acc d => do
      let y := start_y + d
      if y ≥ s.total_rows then .ok acc
      else do
        let row ← getRow s y
        let line_start := if y = start_y then start_x else 0
        let line_end := if y = end_y then end_x else row.rendered_size
        let cs ← get_content_col row line_start
        let ce ← get_content_col row line_end
        .ok (acc ++ [(row.content.take ce).drop cs]))
    []

/-- Models copy_selection(): a status-message no-op when no mark is set,
otherwise extract the raw content across the selection span into the
clipboard. -/
def copy_selection (s : EState) : Except String EState :=
  match s.mark_y, s.mark_x with
  | some my, some mx => do
    let cyA := s.row_offset + s.cursor_y
    let cxA := s.col_offset + s.cursor_x
    let start_y := min my cyA
    let end_y := max my cyA
    let se := if start_y = my then (mx, cxA) else (cxA, mx)
    let lines ← copyLines s start_y end_y se.1 se.2
    .ok (set_status { s with clipboard := List.intercalate [nlC] lines }
      "Copied to clipboard")
  | _, _ => .ok (set_status s "No selection")

/-- Models the deletion loop of cut_selection:
for y in range(end_y, start_y, -1): if y < E.total_rows: delete_editor_row(y). -/
def cutDeleteLoop : EState → Nat → Nat → EState
  | s, 0, _ => s
  | s, y + 1, start_y =>
    if y + 1 > start_y then
      cutDeleteLoop (if y + 1 < s.total_rows then delete_editor_row s (y + 1) else s)
        y start_y
    else s

/-- Models cut_selection(): copy first; if the clipboard is then non-empty
proceed to cut.  When the mark is unset but the clipboard holds text from
an earlier copy, the source reaches sorted([None, int]) and raises
TypeError (after pushing an undo snapshot); the process dies there, which
the model reports as an error value. -/
def cut_selection (s : EState) : Except String EState := do
  let s ← copy_selection s
  if s.clipboard = [] then .ok s
  else
    match s.mark_y, s.mark_x with
    | some my, some mx => do
      let s := save_undo_state s
      let cyA := s.row_offset + s.cursor_y
      let cxA := s.col_offset + s.cursor_x
      let start_y := min my cyA
      let end_y := max my cyA
      let se := if start_y = my then (mx, cxA) else (cxA, mx)
      let first_row ← getRow s start_y
      let last_row ← getRow s end_y
      let start_x_content ← get_content_col first_row se.1
      let end_x_content ← get_content_col last_row se.2
      let rows1 := s.rows.set start_y
        { first_row with content :=
            first_row.content.take start_x_content ++ last_row.content.drop end_x_content }
      let rows2 := rowUpdateRendered s.current_lang s.total_rows rows1 start_y
      let s2 := cutDeleteLoop { s with rows := rows2 } end_y start_y
      let ncy := start_y
      let ncx := se.1
      let roff1 := if ncy < s2.row_offset then ncy else s2.row_offset
      let roff := if ncy ≥ roff1 + s2.screen_rows then ncy - s2.screen_rows + 1 else roff1
      let coff1 := if ncx < s2.col_offset then ncx else s2.col_offset
      let coff := if ncx ≥ coff1 + s2.screen_cols then ncx - s2.screen_cols + 1 else coff1
      .ok { s2 with row_offset := roff, cursor_y := ncy - roff,
                    col_offset := coff, cursor_x := ncx - coff,
                    mark_x := none, mark_y := none, modified := 1,
                    status_message := "Cut to clipboard" }
    | _, _ => .error "TypeError"

/-- Models the insertion loop of paste_clipboard
(for line in lines[1:]: file_row += 1; insert_editor_row(file_row, line)). -/
def pasteInsertLoop (s : EState) (file_row : Nat) :
    List (List Char) → EState × Nat
  | [] => (s, file_row)
  | l :: rest => pasteInsertLoop (insert_editor_row s (file_row + 1) l) (file_row + 1) rest

/-- Models the re-render loop at the end of paste_clipboard
(for i in range(E.row_offset + E.cursor_y, file_row + 1):
 if i < E.total_rows: E.rows[i].update_rendered()). -/
def pasteRefreshN : EState → Nat → Nat → EState
  | s, _, 0 => s
  | s, i, n + 1 =>
    pasteRefreshN
      (if i < s.total_rows then
        { s with rows := rowUpdateRendered s.current_lang s.total_rows s.rows i }
       else s)
      (i + 1) n

/-- Wrapper running the paste re-render loop over the index range
[i, stop). -/
def pasteRefreshLoop (s : EState) (i stop : Nat) : EState :=
  pasteRefreshN s i (stop - i)

/-- Models paste_clipboard(): a status-message no-op on an empty clipboard;
otherwise push an undo snapshot, splice the clipboard lines in at the
cursor and reposition the cursor after the pasted text.  The first-line
splice and the final-row append reassign content without updating
content_size, exactly as the source does. -/
def paste_clipboard (s : EState) : Except String EState := do
  if s.clipboard = [] then .ok (set_status s "Clipboard empty")
  else
    let s := save_undo_state s
    let lines := s.clipboard.splitOn nlC
    let file_row := s.row_offset + s.cursor_y
    let s := if file_row ≥ s.total_rows then insert_editor_row s s.total_rows [] else s
    let row ← getRow s file_row
    let file_col ← get_content_col row (s.col_offset + s.cursor_x)
    let remaining := row.content.drop file_col
    let rows1 := s.rows.set file_row
      { row with content := row.content.take file_col ++ lines.headD [] }
    let ncyf := file_row + lines.length - 1
    let ncxc := (lines.getLastD []).length + (if lines.length = 1 then file_col else 0)
    let sr := pasteInsertLoop { s with rows := rows1 } file_row lines.tail
    let file_row := sr.2
    let lastRow ← getRow sr.1 file_row
    let rows2 := sr.1.rows.set file_row { lastRow with content := lastRow.content ++ remaining }
    let rows3 := rowUpdateRendered sr.1.current_lang sr.1.total_rows rows2 file_row
    let s3 := pasteRefreshLoop { sr.1 with rows := rows3 }
      (sr.1.row_offset + sr.1.cursor_y) (file_row + 1)
    let new_row ← getRow s3 ncyf
    let ncxr := get_rendered_col new_row ncxc
    let roff1 := if ncyf < s3.row_offset then ncyf else s3.row_offset
    let roff := if ncyf ≥ roff1 + s3.screen_rows then ncyf - s3.screen_rows + 1 else roff1
    let coff1 := if ncxr < s3.col_offset then ncxr else s3.col_offset
    let coff := if ncxr ≥ coff1 + s3.screen_cols then ncxr - s3.screen_cols + 1 else coff1
    .ok { s3 with row_offset := roff, cursor_y := ncyf - roff,
                  col_offset := coff, cursor_x := ncxr - coff,
                  modified := 1, status_message := "Pasted from clipboard" }

/-- The outcome of the file read attempted by open_file_terminal. -/
inductive FileResult where
  | found : List (List Char) → FileResult
  | notFound : FileResult
  | otherError : FileResult
deriving DecidableEq, Repr

/-- Models the core of open_file_terminal (lines 652-672, after the
prompts): set the file name and language, clear the document, then load.
On FileNotFoundError the code falls through to the trailing
modified = 0 / "Opened" lines; on any other error it returns immediately,
leaving the already-cleared document in place. -/
def open_file_core (s : EState) (file_name : List Char) (res : FileResult) : EState :=
  let s := { s with file_name := some file_name,
                    current_lang := select_lang_highlight (some file_name) }
  let s := { s with rows := [], total_rows := 0, modified := 0,
                    cursor_x := 0, cursor_y := 0, row_offset := 0, col_offset := 0 }
  match res with
  | .found ls =>
    let s := ls.foldl (fun t l => insert_editor_row t t.total_rows l) s
    set_status { s with modified := 0 } "Opened"
  | .notFound =>
    let s := set_status s "File not found. Created new file."
    set_status { s with modified := 0 } "Opened"
  | .otherError => set_status s "Error opening file"

/-- The edit commands of the terminal controller (the commands that are
edits, i.e. that go through save_undo_state). -/
inductive Cmd where
  | insertChar : Char → Cmd
  | insertNewline : Cmd
  | deleteChar : Cmd
  | cutSel : Cmd
  | pasteClip : Cmd
deriving DecidableEq, Repr

/-- Dispatch one edit command. -/
def applyCmd : Cmd → EState → Except String EState
  | .insertChar ch => insert_char ch
  | .insertNewline => insert_newline
  | .deleteChar => delete_char
  | .cutSel => cut_selection
  | .pasteClip => paste_clipboard

/-- Apply a sequence of edit commands, stopping at the first error
(a raised exception kills the Python process). -/
def applyCmds : List Cmd → EState → Except String EState
  | [], s => .ok s
  | c :: rest, s => do
    let s1 ← applyCmd c s
    applyCmds rest s1

/-- Apply undo n times. -/
def undoN : Nat → EState → EState
  | 0, s => s
  | n + 1, s => undoN n (undo s)

/-- The fields an undo/redo snapshot restores: row contents, cursor x/y
and the col/row offsets agree. -/
abbrev restEq (a b : EState) : Prop :=
  a.rows.map (fun r => r.content) = b.rows.map (fun r => r.content) ∧
  a.cursor_x = b.cursor_x ∧ a.cursor_y = b.cursor_y ∧
  a.col_offset = b.col_offset ∧ a.row_offset = b.row_offset

/-- Whether sub occurs as a contiguous substring of l (decidably). -/
def containsSub (l sub : List Char) : Bool :=
  (List.range (l.length + 1)).any (fun j => startsWithAt l sub j)

/-- A document state built the way open_file_terminal loads lines: rows
inserted one after another at the end, under the given language. -/
def docStateFor (lang : Option LangDef) (ls : List (List Char)) : EState :=
  ls.foldl (fun t l => insert_editor_row t t.total_rows l)
    { initState with current_lang := lang }

/-- A standalone row with the given content, as EditorRow.__init__ builds
it outside any document and with highlighting disabled. -/
def mkRow (content : List Char) : ERow :=
  (newRowInit 0 content [] 0 none).1

/-- Concrete state for C2: a one-row document containing the single
character a. -/
def c2State : EState := docStateFor none [['a']]

/-- Concrete state for C3: no mark set, but the clipboard still holds the
character x from an earlier copy. -/
def c3State : EState := { initState with clipboard := ['x'] }

/-- Concrete prior state for C4: a one-row document "old" named old.c. -/
def c4Prev : EState :=
  { docStateFor (some C_LANG) [sl "old"] with file_name := some (sl "old.c") }

/-- Concrete state for C9: a one-row document "ab" with the cursor at
rendered column 1. -/
def c9State : EState :=
  { docStateFor none [sl "ab"] with cursor_x := 1 }

/-- The run used against C6 as stated: 51 consecutive character inserts. -/
def c6Run : Except String EState :=
  applyCmds (List.replicate 51 (Cmd.insertChar 'a')) initState

/-- The run used for the undo-bound scenario of C8: 60 character inserts. -/
def c8Run : Except String EState :=
  applyCmds (List.replicate 60 (Cmd.insertChar 'a')) initState

/-- The first row of the C7 document, as built when loading the line
that opens an unterminated block comment. -/
def c7Row1 : ERow := (newRowInit 0 (sl "/* open") [] 0 (some C_LANG)).1

/-- The C7 document after its first line has been inserted. -/
def c7S1 : EState := docStateFor (some C_LANG) [sl "/* open"]

/-- The expected shape of the C7 document's second row: entirely
block-comment classified, with the open-comment carry set. -/
def c7Row2 (l2 : List Char) : ERow :=
  { index := 1, content := l2, content_size := l2.length,
    rendered_content := renderContent l2, rendered_size := (renderContent l2).length,
    highlight := List.replicate (renderContent l2).length HL_MLCOMMENT,
    open_comment := true }

/-- The concrete snapshot used by the C10 witness: its row contents equal
the one-row document x, so the restored document is identical to the
current one, yet modified is still forced to 1. -/
def c10Snap : Snap := ⟨[['x']], 3, 1, 2, 0⟩

/-- The concrete state used by the C10 witness. -/
def c10State : EState :=
  { initState with undo_stack := [c10Snap], redo_stack := [c10Snap] }

/-- The state after the C6 witness run (one character insert). -/
def c6WitState : EState :=
  match applyCmds [Cmd.insertChar 'a'] initState with
  | .ok t => t
  | .error _ => initState

/-- A concrete state with one undo snapshot, for the redo half of the C6
witness. -/
def c6RedoState : EState :=
  { initState with undo_stack := [⟨[], 0, 0, 0, 0⟩] }

/-- The rendered-column walk never moves left: its result is at least the
starting rendered column. -/
theorem grcAux_ge : ∀ (l : List Char) (c r : Nat), r ≤ grcAux l c r := by
  intro l
  induction l with
  | nil => intro c r; cases c <;> simp [grcAux]
  | cons ch rest ih =>
    intro c r
    cases c with
    | zero => simp [grcAux]
    | succ c =>
      calc r ≤ r + (if ch = tabC then 8 - r % 8 else 1) := Nat.le_add_right _ _
        _ ≤ grcAux rest c (r + (if ch = tabC then 8 - r % 8 else 1)) := ih _ _

/-- Each character contributes at least one rendered column. -/
theorem grc_width_pos (ch : Char) (r : Nat) :
    1 ≤ (if ch = tabC then 8 - r % 8 else 1) := by
  split
  · have : r % 8 < 8 := Nat.mod_lt _ (by omega)
    omega
  · omega

/-- Walking back from the rendered column of content offset c recovers
exactly c, for any split pre ++ l of the content with the walk standing at
the start of l and any sufficient fuel. -/
theorem gccLoop_grcAux : ∀ (l : List Char) (c : Nat), c ≤ l.length →
    ∀ (fuel : Nat), c < fuel → ∀ (pre : List Char) (r : Nat),
    gccLoop (pre ++ l) (pre.length + l.length) (grcAux l c r) fuel pre.length r =
      .ok (pre.length + c) := by
  intro l
  induction l with
  | nil =>
    intro c hc fuel hf pre r
    have hc0 : c = 0 := Nat.le_zero.mp hc
    subst hc0
    cases fuel with
    | zero => omega
    | succ f => simp [gccLoop, grcAux]
  | cons ch rest ih =>
    intro c hc fuel hf pre r
    cases fuel with
    | zero => omega
    | succ f =>
      cases c with
      | zero => simp [gccLoop, grcAux]
      | succ c =>
        have hwidth := grc_width_pos ch r
        have hge := grcAux_ge rest c (r + (if ch = tabC then 8 - r % 8 else 1))
        have hgrc : grcAux (ch :: rest) (c + 1) r =
            grcAux rest c (r + (if ch = tabC then 8 - r % 8 else 1)) := rfl
        rw [gccLoop]
        have hcond : pre.length < pre.length + (ch :: rest).length ∧
            r < grcAux (ch :: rest) (c + 1) r := by
          refine ⟨by simp, ?_⟩
          rw [hgrc]; omega
        rw [if_pos hcond]
        have hidx : (pre ++ ch :: rest)[pre.length]? = some ch := by
          rw [List.getElem?_append_right (Nat.le_refl _)]
          simp
        have hc' : c ≤ rest.length := by simpa using hc
        have hf' : c < f := by omega
        simp only [hidx]
        by_cases htab : ch = tabC
        · subst htab
          have hw : (if tabC = tabC then 8 - r % 8 else 1) = 8 - r % 8 := if_pos rfl
          rw [hw] at hge hgrc
          rw [if_pos (show tabC = tabC from rfl)]
          have hnb : ¬ (r + (8 - r % 8) > grcAux (tabC :: rest) (c + 1) r) := by
            rw [hgrc]; omega
          rw [if_neg hnb, hgrc]
          rw [show pre.length + (tabC :: rest).length = (pre ++ [tabC]).length + rest.length
            by simp; omega]
          rw [show pre.length + (c + 1) = (pre ++ [tabC]).length + c by simp; omega]
          rw [show pre.length + 1 = (pre ++ [tabC]).length by simp]
          rw [show pre ++ tabC :: rest = (pre ++ [tabC]) ++ rest by simp]
          exact ih c hc' f hf' (pre ++ [tabC]) (r + (8 - r % 8))
        · have hw : (if ch = tabC then 8 - r % 8 else 1) = 1 := if_neg htab
          rw [hw] at hge hgrc
          rw [if_neg htab, hgrc]
          rw [show pre.length + (ch :: rest).length = (pre ++ [ch]).length + rest.length
            by simp; omega]
          rw [show pre.length + (c + 1) = (pre ++ [ch]).length + c by simp; omega]
          rw [show pre.length + 1 = (pre ++ [ch]).length by simp]
          rw [show pre ++ ch :: rest = (pre ++ [ch]) ++ rest by simp]
          exact ih c hc' f hf' (pre ++ [ch]) (r + 1)

/-- C5: for every row whose stored content_size agrees with its content
(as every row built by EditorRow.__init__ does) and every raw content
offset c with 0 <= c <= length of the content, converting c to a rendered
column (get_rendered_col) and back (get_content_col) yields exactly c.
Content offsets never sit strictly inside a tab's expansion span (only
rendered offsets can), so the round trip holds for every such c; a
fortiori it holds whenever c does not fall inside a tab's expansion span,
as the claim states. -/
theorem C5_column_roundtrip (row : ERow) (hs : row.content_size = row.content.length)
    (c : Nat) (hc : c ≤ row.content.length) :
    get_content_col row (get_rendered_col row c) = .ok c := by
  unfold get_content_col get_rendered_col
  rw [hs]
  have key := gccLoop_grcAux row.content c hc (row.content.length + 1) (by omega) [] 0
  simpa using key

/-- Witness for C5 at the concrete row a TAB b and offset c = 2. -/
theorem C5_column_roundtrip_witness :
    (mkRow (sl "a\tb")).content_size = (mkRow (sl "a\tb")).content.length ∧
    2 ≤ (mkRow (sl "a\tb")).content.length ∧
    get_content_col (mkRow (sl "a\tb")) (get_rendered_col (mkRow (sl "a\tb")) 2) =
      .ok 2 :=
  ⟨by decide, by decide, C5_column_roundtrip (mkRow (sl "a\tb")) (by decide) 2 (by decide)⟩

/-- C1: the claim says the stored rendered form expands each tab to the
next multiple-of-8 rendered column boundary, so that the rendered length
equals the rendered column obtained by walking the raw characters
(get_rendered_col).  On the row with content a TAB, update_rendered
replaces the tab with exactly eight spaces, giving rendered length 9,
while the walk reaches rendered column 8: the code contradicts the
claimed relationship (and its own cursor arithmetic, which uses the
walk). -/
theorem C1_tab_rendering_mismatch :
    (mkRow (sl "a\t")).rendered_content.length = (mkRow (sl "a\t")).rendered_size ∧
    (mkRow (sl "a\t")).rendered_size = 9 ∧
    get_rendered_col (mkRow (sl "a\t")) ((mkRow (sl "a\t")).content.length) = 8 ∧
    (9 : Nat) ≠ 8 := by decide

/-- C2 as stated is false: for the one-row document holding the single
character a, the saved byte sequence is just that character, while the
rows joined by newline with a trailing newline appended would be the
character followed by a newline. -/
theorem C2_counterexample :
    save_content c2State = ['a'] ∧
    List.intercalate [nlC] (c2State.rows.map (fun r => r.content)) ++ [nlC] =
      ['a', nlC] ∧
    (['a'] : List Char) ≠ ['a', nlC] := by decide

/-- Dropping a leading run of matched elements is what dropWhile does, so
the head of its result never satisfies the predicate. -/
theorem dropWhile_head_not (p : Char → Bool) :
    ∀ (l : List Char) (a : Char), (List.dropWhile p l).head? = some a → p a = false := by
  intro l
  induction l with
  | nil => simp [List.dropWhile]
  | cons x xs ih =>
    intro a h
    by_cases hx : p x
    · rw [List.dropWhile_cons_of_pos hx] at h
      exact ih a h
    · rw [List.dropWhile_cons_of_neg hx] at h
      simp only [List.head?_cons, Option.some.injEq] at h
      subst h
      simpa using hx

/-- Stripping trailing newlines absorbs an appended newline. -/
theorem rstripNl_append_nl (x : List Char) : rstripNl (x ++ [nlC]) = rstripNl x := by
  unfold rstripNl
  rw [List.reverse_append]
  simp [List.dropWhile_cons_of_pos]

/-- The rstrip result never ends with a newline. -/
theorem rstripNl_getLast (l : List Char) : (rstripNl l).getLast? ≠ some nlC := by
  unfold rstripNl
  rw [List.getLast?_reverse]
  intro h
  have := dropWhile_head_not (fun c => c = nlC) l.reverse nlC h
  simp at this

/-- C2 amended: the terminal save operation writes the rows' raw contents
joined by a single newline with every trailing newline stripped; in
particular the written bytes never end with a newline (no trailing newline
is appended). -/
theorem C2_amended_save_bytes : ∀ s : EState,
    save_content s =
      rstripNl (List.intercalate [nlC] (s.rows.map (fun r => r.content))) ∧
    (save_content s).getLast? ≠ some nlC := by
  intro s
  constructor
  · unfold save_content rows_to_string
    exact rstripNl_append_nl _
  · exact rstripNl_getLast _

/-- C3: with no mark set but a clipboard still holding text from an
earlier copy, cut_selection reaches sorted([None, int]) and raises
TypeError (modelled as an error value) instead of being a status-message
no-op. -/
theorem C3_cut_stale_clipboard_crash :
    c3State.mark_x = none ∧ c3State.mark_y = none ∧ c3State.clipboard = ['x'] ∧
    cut_selection c3State = .error "TypeError" :=
  ⟨rfl, rfl, rfl, rfl⟩

/-- C4 as stated is false: after a failed open (error other than
file-not-found), the previously loaded rows, file name and language are
all replaced, not preserved. -/
theorem C4_counterexample :
    (open_file_core c4Prev (sl "bad.py") .otherError).rows = [] ∧
    c4Prev.rows.map (fun r => r.content) = [sl "old"] ∧
    (open_file_core c4Prev (sl "bad.py") .otherError).file_name = some (sl "bad.py") ∧
    c4Prev.file_name = some (sl "old.c") ∧
    (open_file_core c4Prev (sl "bad.py") .otherError).current_lang = some PY_LANG ∧
    c4Prev.current_lang = some C_LANG := by
  refine ⟨rfl, rfl, rfl, rfl, ?_, rfl⟩
  decide

/-- C4 amended: when the open operation fails with an error other than
file-not-found, the editor is left with an empty document bound to the
requested file name and its language, modified cleared, cursor and
offsets reset, and an error status message — the previous document,
file name and language are discarded. -/
theorem C4_amended_open_error : ∀ (s : EState) (fn : List Char),
    (open_file_core s fn .otherError).rows = [] ∧
    (open_file_core s fn .otherError).total_rows = 0 ∧
    (open_file_core s fn .otherError).file_name = some fn ∧
    (open_file_core s fn .otherError).current_lang = select_lang_highlight (some fn) ∧
    (open_file_core s fn .otherError).modified = 0 ∧
    (open_file_core s fn .otherError).cursor_x = 0 ∧
    (open_file_core s fn .otherError).cursor_y = 0 ∧
    (open_file_core s fn .otherError).col_offset = 0 ∧
    (open_file_core s fn .otherError).row_offset = 0 ∧
    (open_file_core s fn .otherError).status_message = "Error opening file" := by
  intro s fn
  simp [open_file_core, set_status]

/-- Eliminator for a successful Except bind. -/
theorem except_bind_ok {α β : Type} {x : Except String α} {f : α → Except String β}
    {b : β} (h : x >>= f = .ok b) : ∃ a, x = .ok a ∧ f a = .ok b := by
  cases x with
  | error e => exact absurd h (by simp [Bind.bind, Except.bind])
  | ok a => exact ⟨a, rfl, by simpa [Bind.bind, Except.bind] using h⟩

/-- Projection facts: insert_editor_row leaves the undo stack alone. -/
@[simp] theorem ier_undo (s : EState) (p : Nat) (c : List Char) :
    (insert_editor_row s p c).undo_stack = s.undo_stack := rfl

/-- Projection facts: insert_editor_row leaves the redo stack alone. -/
@[simp] theorem ier_redo (s : EState) (p : Nat) (c : List Char) :
    (insert_editor_row s p c).redo_stack = s.redo_stack := rfl

/-- Projection facts: delete_editor_row leaves the undo stack alone. -/
@[simp] theorem der_undo (s : EState) (p : Nat) :
    (delete_editor_row s p).undo_stack = s.undo_stack := by
  unfold delete_editor_row; split <;> rfl

/-- Projection facts: delete_editor_row leaves the redo stack alone. -/
@[simp] theorem der_redo (s : EState) (p : Nat) :
    (delete_editor_row s p).redo_stack = s.redo_stack := by
  unfold delete_editor_row; split <;> rfl

/-- Projection facts: the pad loop of insert_char leaves the undo stack
alone. -/
@[simp] theorem padRowsF_undo (fr : Nat) :
    ∀ (fuel : Nat) (s : EState), (padRowsF fr fuel s).undo_stack = s.undo_stack := by
  intro fuel
  induction fuel with
  | zero => intro s; rfl
  | succ f ih => intro s; rw [padRowsF]; split <;> simp [ih]

/-- Projection facts: the pad loop of insert_char leaves the redo stack
alone. -/
@[simp] theorem padRowsF_redo (fr : Nat) :
    ∀ (fuel : Nat) (s : EState), (padRowsF fr fuel s).redo_stack = s.redo_stack := by
  intro fuel
  induction fuel with
  | zero => intro s; rfl
  | succ f ih => intro s; rw [padRowsF]; split <;> simp [ih]

/-- Projection facts: the cut deletion loop leaves the undo stack alone. -/
@[simp] theorem cutDeleteLoop_undo :
    ∀ (y : Nat) (s : EState) (sy : Nat), (cutDeleteLoop s y sy).undo_stack = s.undo_stack := by
  intro y
  induction y with
  | zero => intro s sy; rfl
  | succ n ih => intro s sy; rw [cutDeleteLoop]; split <;> simp [ih] <;> split <;> simp

/-- Projection facts: the cut deletion loop leaves the redo stack alone. -/
@[simp] theorem cutDeleteLoop_redo :
    ∀ (y : Nat) (s : EState) (sy : Nat), (cutDeleteLoop s y sy).redo_stack = s.redo_stack := by
  intro y
  induction y with
  | zero => intro s sy; rfl
  | succ n ih => intro s sy; rw [cutDeleteLoop]; split <;> simp [ih] <;> split <;> simp

/-- Projection facts: the paste insertion loop leaves the undo stack
alone. -/
@[simp] theorem pasteInsertLoop_undo :
    ∀ (ls : List (List Char)) (s : EState) (fr : Nat),
    (pasteInsertLoop s fr ls).1.undo_stack = s.undo_stack := by
  intro ls
  induction ls with
  | nil => intro s fr; rfl
  | cons l rest ih => intro s fr; rw [pasteInsertLoop]; simp [ih]

/-- Projection facts: the paste insertion loop leaves the redo stack
alone. -/
@[simp] theorem pasteInsertLoop_redo :
    ∀ (ls : List (List Char)) (s : EState) (fr : Nat),
    (pasteInsertLoop s fr ls).1.redo_stack = s.redo_stack := by
  intro ls
  induction ls with
  | nil => intro s fr; rfl
  | cons l rest ih => intro s fr; rw [pasteInsertLoop]; simp [ih]

/-- Projection facts: the paste re-render loop leaves the undo stack
alone. -/
@[simp] theorem pasteRefreshN_undo :
    ∀ (n : Nat) (s : EState) (i : Nat),
    (pasteRefreshN s i n).undo_stack = s.undo_stack := by
  intro n
  induction n with
  | zero => intro s i; rfl
  | succ m ih => intro s i; rw [pasteRefreshN]; simp [ih]; split <;> simp

/-- Projection facts: the paste re-render loop leaves the redo stack
alone. -/
@[simp] theorem pasteRefreshN_redo :
    ∀ (n : Nat) (s : EState) (i : Nat),
    (pasteRefreshN s i n).redo_stack = s.redo_stack := by
  intro n
  induction n with
  | zero => intro s i; rfl
  | succ m ih => intro s i; rw [pasteRefreshN]; simp [ih]; split <;> simp

/-- save_undo_state pushes the current snapshot (capped) and clears
redo. -/
theorem save_undo_stacks (s : EState) :
    (save_undo_state s).undo_stack = pushCapped s.undo_stack (snapOf s) ∧
    (save_undo_state s).redo_stack = [] := ⟨rfl, rfl⟩

/-- States agreeing on the restored fields have the same snapshot. -/
theorem snapOf_congr {a b : EState} (h : restEq a b) : snapOf a = snapOf b := by
  obtain ⟨h1, h2, h3, h4, h5⟩ := h
  simp [snapOf, h1, h2, h3, h4, h5]

/-- A successful copy_selection changes only the clipboard and the status
message. -/
theorem copy_ok {s s' : EState} (h : copy_selection s = .ok s') :
    s'.undo_stack = s.undo_stack ∧ s'.redo_stack = s.redo_stack ∧ restEq s' s ∧
    s'.mark_x = s.mark_x ∧ s'.mark_y = s.mark_y ∧ s'.rows = s.rows ∧
    s'.total_rows = s.total_rows ∧ s'.screen_rows = s.screen_rows ∧
    s'.screen_cols = s.screen_cols ∧ s'.current_lang = s.current_lang := by
  unfold copy_selection at h
  rcases hmy : s.mark_y with _ | my <;> rcases hmx : s.mark_x with _ | mx <;>
    rw [hmy, hmx] at h
  · simp only [Except.ok.injEq] at h
    subst h
    simp [set_status, restEq, hmx, hmy]
  · simp only [Except.ok.injEq] at h
    subst h
    simp [set_status, restEq, hmx, hmy]
  · simp only [Except.ok.injEq] at h
    subst h
    simp [set_status, restEq, hmx, hmy]
  · obtain ⟨lines, hlines, h⟩ := except_bind_ok h
    simp only [Except.ok.injEq] at h
    subst h
    simp [set_status, restEq, hmx, hmy]

/-- Renumbering rows changes no content. -/
@[simp] theorem bumpUp_map_content :
    ∀ (l : List ERow) (idx lo hi : Nat),
    (bumpUp l idx lo hi).map (fun r => r.content) = l.map (fun r => r.content) := by
  intro l
  induction l with
  | nil => intro idx lo hi; rfl
  | cons r rs ih =>
    intro idx lo hi
    rw [bumpUp]
    simp only [List.map_cons, ih]
    split <;> rfl

/-- Renumbering rows preserves the list length. -/
@[simp] theorem bumpUp_length :
    ∀ (l : List ERow) (idx lo hi : Nat), (bumpUp l idx lo hi).length = l.length := by
  intro l
  induction l with
  | nil => intro idx lo hi; rfl
  | cons r rs ih =>
    intro idx lo hi
    rw [bumpUp]
    simp [ih]

/-- Python list.insert always grows the list by one element. -/
@[simp] theorem listInsertAt_length (l : List α) (i : Nat) (a : α) :
    (listInsertAt l i a).length = l.length + 1 := by
  simp [listInsertAt]
  omega

/-- Inserting at the current length appends. -/
theorem listInsertAt_end (l : List α) (a : α) : listInsertAt l l.length a = l ++ [a] := by
  simp [listInsertAt]

/-- A freshly constructed row carries the requested content. -/
@[simp] theorem newRowInit_fst_content (idx : Nat) (c : List Char) (rows : List ERow)
    (total : Nat) (lang : Option LangDef) :
    (newRowInit idx c rows total lang).1.content = c := by
  cases lang <;> rfl

/-- Constructing a row at or past the end of the document performs no
cross-row propagation: the pre-insert row list is returned unchanged. -/
theorem newRowInit_snd_end (idx : Nat) (c : List Char) (rows : List ERow)
    (total : Nat) (lang : Option LangDef) (h : total ≤ idx) :
    (newRowInit idx c rows total lang).2 = rows := by
  cases lang with
  | none => rfl
  | some sy =>
    simp only [newRowInit]
    split
    · next hcond => exact absurd hcond.2 (by omega)
    · rfl

/-- Appending a row at the end of a consistent document: the contents gain
the new row's content, and both counters grow by one. -/
theorem ier_end_spec (s : EState) (c : List Char) (htr : s.total_rows = s.rows.length) :
    (insert_editor_row s s.total_rows c).rows.map (fun r => r.content) =
      s.rows.map (fun r => r.content) ++ [c] ∧
    (insert_editor_row s s.total_rows c).total_rows = s.total_rows + 1 ∧
    (insert_editor_row s s.total_rows c).rows.length = s.rows.length + 1 := by
  have hpos : ¬ s.total_rows > s.total_rows := by omega
  simp only [insert_editor_row, if_neg hpos,
    newRowInit_snd_end _ _ _ _ _ (Nat.le_refl s.total_rows), newRowInit_fst_content]
  rw [htr, listInsertAt_end]
  refine ⟨by simp, by simp, by simp⟩

/-- The rebuild loop of undo/redo: starting from a consistent state it
appends exactly the given contents, preserving both stacks. -/
theorem rebuildRows_spec :
    ∀ (cs : List (List Char)) (s : EState), s.total_rows = s.rows.length →
    (rebuildRows s cs).rows.map (fun r => r.content) =
      s.rows.map (fun r => r.content) ++ cs ∧
    (rebuildRows s cs).total_rows = (rebuildRows s cs).rows.length ∧
    (rebuildRows s cs).undo_stack = s.undo_stack ∧
    (rebuildRows s cs).redo_stack = s.redo_stack := by
  intro cs
  induction cs with
  | nil =>
    intro s htr
    refine ⟨by simp [rebuildRows], by simp [rebuildRows, htr], rfl, rfl⟩
  | cons c rest ih =>
    intro s htr
    have hstep : rebuildRows s (c :: rest) =
        rebuildRows (insert_editor_row s s.total_rows c) rest := by
      simp [rebuildRows]
    obtain ⟨h1, h2, h3⟩ := ier_end_spec s c htr
    have htr1 : (insert_editor_row s s.total_rows c).total_rows =
        (insert_editor_row s s.total_rows c).rows.length := by
      rw [h2, h3, htr]
    obtain ⟨g1, g2, g3, g4⟩ := ih (insert_editor_row s s.total_rows c) htr1
    refine ⟨?_, by rw [hstep]; exact g2, ?_, ?_⟩
    · rw [hstep, g1, h1]
      simp
    · rw [hstep, g3]
      simp
    · rw [hstep, g4]
      simp

/-- What undo does when the stack is nonempty: restore the snapshot's row
contents, cursor and offsets, pop the undo stack, push the current
snapshot onto redo, and set modified. -/
theorem undo_spec (s : EState) (l : List Snap) (snap : Snap)
    (h : s.undo_stack = l ++ [snap]) :
    (undo s).rows.map (fun r => r.content) = snap.rowsContents ∧
    (undo s).cursor_x = snap.cx ∧ (undo s).cursor_y = snap.cy ∧
    (undo s).col_offset = snap.coff ∧ (undo s).row_offset = snap.roff ∧
    (undo s).undo_stack = l ∧
    (undo s).redo_stack = s.redo_stack ++ [snapOf s] ∧
    (undo s).modified = 1 := by
  have hne : ¬ (l ++ [snap] = []) := by simp
  obtain ⟨g1, g2, g3, g4⟩ := rebuildRows_spec snap.rowsContents
    { s with redo_stack := s.redo_stack ++ [snapOf s],
             undo_stack := (l ++ [snap]).dropLast, rows := [], total_rows := 0 }
    (by simp)
  simp only [undo, h, List.getLast?_concat, if_neg hne]
  refine ⟨by simpa using g1, by simp, by simp, by simp, by simp, ?_, by simpa [h] using g4, by simp⟩
  have := g3
  simp only [List.dropLast_concat] at this
  simpa using this

/-- What redo does when the stack is nonempty (the mirror image of
undo_spec). -/
theorem redo_spec (s : EState) (l : List Snap) (snap : Snap)
    (h : s.redo_stack = l ++ [snap]) :
    (redo s).rows.map (fun r => r.content) = snap.rowsContents ∧
    (redo s).cursor_x = snap.cx ∧ (redo s).cursor_y = snap.cy ∧
    (redo s).col_offset = snap.coff ∧ (redo s).row_offset = snap.roff ∧
    (redo s).redo_stack = l ∧
    (redo s).undo_stack = s.undo_stack ++ [snapOf s] ∧
    (redo s).modified = 1 := by
  have hne : ¬ (l ++ [snap] = []) := by simp
  obtain ⟨g1, g2, g3, g4⟩ := rebuildRows_spec snap.rowsContents
    { s with undo_stack := s.undo_stack ++ [snapOf s],
             redo_stack := (l ++ [snap]).dropLast, rows := [], total_rows := 0 }
    (by simp)
  simp only [redo, h, List.getLast?_concat, if_neg hne]
  refine ⟨by simpa using g1, by simp, by simp, by simp, by simp, ?_, by simpa [h] using g3, by simp⟩
  have := g4
  simp only [List.dropLast_concat] at this
  simpa using this

/-- The capped push grows the stack by at most one entry. -/
theorem pushCapped_length_le (u : List Snap) (x : Snap) :
    (pushCapped u x).length ≤ u.length + 1 := by
  simp only [pushCapped]
  split <;> simp

/-- Below the cap, the push is a plain append. -/
theorem pushCapped_of_le (u : List Snap) (x : Snap) (h : u.length ≤ 49) :
    pushCapped u x = u ++ [x] := by
  simp only [pushCapped]
  rw [if_neg (by simp; omega)]

/-- The capped push never leaves more than 50 entries when the stack was
within bounds. -/
theorem pushCapped_le50 (u : List Snap) (x : Snap) (h : u.length ≤ 50) :
    (pushCapped u x).length ≤ 50 := by
  simp only [pushCapped]
  split
  · next hgt => simp at hgt ⊢; omega
  · next hle => simp at hle ⊢; omega

/-- C10: undo/redo snapshots do not record the modified flag: whenever
undo or redo restores a state, modified is set to 1 afterwards (even when
the restored contents equal the last-saved document), while row contents,
cursor x/y and the col/row offsets are taken from the popped snapshot. -/
theorem C10_modified_not_in_snapshot :
    ∀ (s : EState) (l : List Snap) (snap : Snap),
    (s.undo_stack = l ++ [snap] →
      (undo s).modified = 1 ∧
      (undo s).rows.map (fun r => r.content) = snap.rowsContents ∧
      (undo s).cursor_x = snap.cx ∧ (undo s).cursor_y = snap.cy ∧
      (undo s).col_offset = snap.coff ∧ (undo s).row_offset = snap.roff) ∧
    (s.redo_stack = l ++ [snap] →
      (redo s).modified = 1 ∧
      (redo s).rows.map (fun r => r.content) = snap.rowsContents ∧
      (redo s).cursor_x = snap.cx ∧ (redo s).cursor_y = snap.cy ∧
      (redo s).col_offset = snap.coff ∧ (redo s).row_offset = snap.roff) := by
  intro s l snap
  constructor
  · intro h
    obtain ⟨g1, g2, g3, g4, g5, _, _, g8⟩ := undo_spec s l snap h
    exact ⟨g8, g1, g2, g3, g4, g5⟩
  · intro h
    obtain ⟨g1, g2, g3, g4, g5, _, _, g8⟩ := redo_spec s l snap h
    exact ⟨g8, g1, g2, g3, g4, g5⟩





/-- Witness for C10 at a concrete state whose undo and redo stacks each
hold one snapshot. -/
theorem C10_modified_not_in_snapshot_witness :
    ((undo c10State).modified = 1 ∧
      (undo c10State).rows.map (fun r => r.content) = c10Snap.rowsContents ∧
      (undo c10State).cursor_x = c10Snap.cx ∧ (undo c10State).cursor_y = c10Snap.cy ∧
      (undo c10State).col_offset = c10Snap.coff ∧
      (undo c10State).row_offset = c10Snap.roff) ∧
    ((redo c10State).modified = 1 ∧
      (redo c10State).rows.map (fun r => r.content) = c10Snap.rowsContents ∧
      (redo c10State).cursor_x = c10Snap.cx ∧ (redo c10State).cursor_y = c10Snap.cy ∧
      (redo c10State).col_offset = c10Snap.coff ∧
      (redo c10State).row_offset = c10Snap.roff) :=
  ⟨(C10_modified_not_in_snapshot c10State [] c10Snap).1 rfl,
   (C10_modified_not_in_snapshot c10State [] c10Snap).2 rfl⟩

/-- C8: the undo stack is bounded: under the invariant that the two stacks
hold at most 50 snapshots in total (true initially and preserved by every
stack operation), save_undo_state leaves at most 50 undo entries (dropping
the oldest) and clears the redo stack, undo/redo preserve the invariant,
and after 60 distinct edits (60 character inserts) exactly 50 snapshots
remain restorable. -/
theorem C8_undo_stack_bound :
    (∀ s : EState, s.undo_stack.length + s.redo_stack.length ≤ 50 →
      (save_undo_state s).undo_stack.length ≤ 50 ∧
      (save_undo_state s).redo_stack = [] ∧
      (save_undo_state s).undo_stack.length + (save_undo_state s).redo_stack.length ≤ 50 ∧
      (undo s).undo_stack.length + (undo s).redo_stack.length ≤ 50 ∧
      (redo s).undo_stack.length + (redo s).redo_stack.length ≤ 50) ∧
    c8Run.map (fun t => t.undo_stack.length) = Except.ok 50 := by
  constructor
  · intro s hs
    have hu : (save_undo_state s).undo_stack.length ≤ 50 :=
      pushCapped_le50 _ _ (by omega)
    refine ⟨hu, rfl, ?_, ?_, ?_⟩
    · have : (save_undo_state s).redo_stack = [] := rfl
      rw [this]
      simpa using hu
    · rcases List.eq_nil_or_concat s.undo_stack with hnil | ⟨l, snap, hdec⟩
      · unfold undo
        rw [if_pos hnil]
        simpa [set_status, hnil] using hs
      · rw [List.concat_eq_append] at hdec
        obtain ⟨_, _, _, _, _, g6, g7, _⟩ := undo_spec s l snap hdec
        rw [g6, g7]
        have : s.undo_stack.length = l.length + 1 := by rw [hdec]; simp
        simp only [List.length_append, List.length_singleton]
        omega
    · rcases List.eq_nil_or_concat s.redo_stack with hnil | ⟨l, snap, hdec⟩
      · unfold redo
        rw [if_pos hnil]
        simpa [set_status, hnil] using hs
      · rw [List.concat_eq_append] at hdec
        obtain ⟨_, _, _, _, _, g6, g7, _⟩ := redo_spec s l snap hdec
        rw [g6, g7]
        have : s.redo_stack.length = l.length + 1 := by rw [hdec]; simp
        simp only [List.length_append, List.length_singleton]
        omega
  · rfl

/-- Witness for C8 at the initial state, whose stacks are empty. -/
theorem C8_undo_stack_bound_witness :
    (save_undo_state initState).undo_stack.length ≤ 50 ∧
    (save_undo_state initState).redo_stack = [] ∧
    (save_undo_state initState).undo_stack.length +
      (save_undo_state initState).redo_stack.length ≤ 50 ∧
    (undo initState).undo_stack.length + (undo initState).redo_stack.length ≤ 50 ∧
    (redo initState).undo_stack.length + (redo initState).redo_stack.length ≤ 50 :=
  C8_undo_stack_bound.1 initState (by decide)

/-- C9: splitting the one-row document ab at rendered column 1 with
insert_newline leaves row 0 with content a but stored content_size 2
(the source reassigns content without updating content_size), violating
the claimed invariant content_size = len(content). -/
theorem C9_newline_size_bug :
    (insert_newline c9State).map
        (fun t => t.rows.head?.map (fun r => (r.content, r.content_size))) =
      .ok (some (['a'], 2)) ∧
    (['a'] : List Char).length ≠ 2 :=
  ⟨rfl, by decide⟩

/-- Projecting the undo stack through a state-level conditional. -/
@[simp] theorem undo_stack_ite (c : Prop) [Decidable c] (a b : EState) :
    (if c then a else b).undo_stack = if c then a.undo_stack else b.undo_stack := by
  split <;> rfl

/-- Projecting the redo stack through a state-level conditional. -/
@[simp] theorem redo_stack_ite (c : Prop) [Decidable c] (a b : EState) :
    (if c then a else b).redo_stack = if c then a.redo_stack else b.redo_stack := by
  split <;> rfl

/-- A successful insert_char pushes exactly one snapshot of the prior
state and clears redo; nothing later touches the stacks. -/
theorem insert_char_stacks (ch : Char) (s s' : EState) (h : insert_char ch s = .ok s') :
    s'.undo_stack = pushCapped s.undo_stack (snapOf s) ∧ s'.redo_stack = [] := by
  simp only [insert_char] at h
  obtain ⟨row, hrow, h⟩ := except_bind_ok h
  obtain ⟨fc, hfc, h⟩ := except_bind_ok h
  simp only [Except.ok.injEq] at h
  subst h
  constructor <;> simp only [padRows, padRowsF_undo, padRowsF_redo, save_undo_state]

/-- A successful insert_newline pushes exactly one snapshot of the prior
state and clears redo. -/
theorem insert_newline_stacks (s s' : EState) (h : insert_newline s = .ok s') :
    s'.undo_stack = pushCapped s.undo_stack (snapOf s) ∧ s'.redo_stack = [] := by
  simp only [insert_newline] at h
  split at h
  · obtain ⟨y, hy, h⟩ := except_bind_ok h
    simp only [Except.ok.injEq] at hy h
    subst hy
    subst h
    exact ⟨rfl, rfl⟩
  · obtain ⟨row, hrow, h⟩ := except_bind_ok h
    obtain ⟨fc, hfc, h⟩ := except_bind_ok h
    split at h <;> split at h <;>
      (obtain ⟨y, hy, h⟩ := except_bind_ok h
       simp only [Except.ok.injEq] at hy h
       subst hy
       subst h
       exact ⟨rfl, rfl⟩)

/-- A successful delete_char pushes exactly one snapshot of the prior
state and clears redo (even on its early-return no-op paths, which return
after save_undo_state has already run). -/
theorem delete_char_stacks (s s' : EState) (h : delete_char s = .ok s') :
    s'.undo_stack = pushCapped s.undo_stack (snapOf s) ∧ s'.redo_stack = [] := by
  simp only [delete_char] at h
  split at h
  · simp only [Except.ok.injEq] at h
    subst h
    exact ⟨rfl, rfl⟩
  · obtain ⟨row, hrow, h⟩ := except_bind_ok h
    split at h
    · split at h
      · simp only [Except.ok.injEq] at h
        subst h
        exact ⟨rfl, rfl⟩
      · obtain ⟨prow, hprow, h⟩ := except_bind_ok h
        obtain ⟨pnow, hpnow, h⟩ := except_bind_ok h
        simp only [Except.ok.injEq] at h
        subst h
        constructor <;> simp only [der_undo, der_redo, save_undo_state]
    · obtain ⟨pos, hpos, h⟩ := except_bind_ok h
      simp only [Except.ok.injEq] at h
      subst h
      exact ⟨rfl, rfl⟩

/-- A successful cut_selection either performs an edit (one snapshot of
the prior state pushed, redo cleared) or is a stack-preserving no-op that
changes none of the snapshot fields. -/
theorem cut_stacks (s s' : EState) (h : cut_selection s = .ok s') :
    (s'.undo_stack = pushCapped s.undo_stack (snapOf s) ∧ s'.redo_stack = []) ∨
    (restEq s' s ∧ s'.undo_stack = s.undo_stack ∧ s'.redo_stack = s.redo_stack) := by
  simp only [cut_selection] at h
  obtain ⟨s1, hcopy, h⟩ := except_bind_ok h
  obtain ⟨c1, c2, c3, _, _, _, _, _, _, _⟩ := copy_ok hcopy
  split at h
  · simp only [Except.ok.injEq] at h
    subst h
    exact Or.inr ⟨c3, c1, c2⟩
  · split at h
    · obtain ⟨frow, hfrow, h⟩ := except_bind_ok h
      obtain ⟨lrow, hlrow, h⟩ := except_bind_ok h
      obtain ⟨sxc, hsxc, h⟩ := except_bind_ok h
      obtain ⟨exc, hexc, h⟩ := except_bind_ok h
      simp only [Except.ok.injEq] at h
      subst h
      refine Or.inl ⟨?_, ?_⟩ <;>
        simp only [cutDeleteLoop_undo, cutDeleteLoop_redo, save_undo_state,
          c1, snapOf_congr c3]
    · exact Except.noConfusion h

/-- A successful paste_clipboard either performs an edit (one snapshot of
the prior state pushed, redo cleared) or is the empty-clipboard
status-message no-op. -/
theorem paste_stacks (s s' : EState) (h : paste_clipboard s = .ok s') :
    (s'.undo_stack = pushCapped s.undo_stack (snapOf s) ∧ s'.redo_stack = []) ∨
    (restEq s' s ∧ s'.undo_stack = s.undo_stack ∧ s'.redo_stack = s.redo_stack) := by
  simp only [paste_clipboard] at h
  split at h
  · simp only [Except.ok.injEq] at h
    subst h
    exact Or.inr ⟨by simp [set_status, restEq], rfl, rfl⟩
  · obtain ⟨row, hrow, h⟩ := except_bind_ok h
    obtain ⟨fc, hfc, h⟩ := except_bind_ok h
    obtain ⟨lrow, hlrow, h⟩ := except_bind_ok h
    obtain ⟨nrow, hnrow, h⟩ := except_bind_ok h
    simp only [Except.ok.injEq] at h
    subst h
    refine Or.inl ⟨?_, ?_⟩ <;>
      simp only [pasteRefreshLoop, pasteRefreshN_undo, pasteRefreshN_redo,
        pasteInsertLoop_undo, pasteInsertLoop_redo, undo_stack_ite, redo_stack_ite,
        ier_undo, ier_redo, ite_self, save_undo_state]

/-- Every successfully applied edit command either pushes exactly one
snapshot of the prior state (clearing redo), or leaves the stacks and all
snapshot fields unchanged. -/
theorem cmd_stacks (c : Cmd) (s s' : EState) (h : applyCmd c s = .ok s') :
    (s'.undo_stack = pushCapped s.undo_stack (snapOf s) ∧ s'.redo_stack = []) ∨
    (restEq s' s ∧ s'.undo_stack = s.undo_stack ∧ s'.redo_stack = s.redo_stack) := by
  cases c with
  | insertChar ch => exact Or.inl (insert_char_stacks ch s s' h)
  | insertNewline => exact Or.inl (insert_newline_stacks s s' h)
  | deleteChar => exact Or.inl (delete_char_stacks s s' h)
  | cutSel => exact cut_stacks s s' h
  | pasteClip => exact paste_stacks s s' h

/-- restEq is reflexive. -/
theorem restEq_refl (a : EState) : restEq a a := ⟨rfl, rfl, rfl, rfl, rfl⟩

/-- restEq is transitive. -/
theorem restEq_trans {a b c : EState} (h1 : restEq a b) (h2 : restEq b c) :
    restEq a c :=
  ⟨h1.1.trans h2.1, h1.2.1.trans h2.2.1, h1.2.2.1.trans h2.2.2.1,
   h1.2.2.2.1.trans h2.2.2.2.1, h1.2.2.2.2.trans h2.2.2.2.2⟩

/-- undo on an empty stack is a status-message no-op. -/
theorem undo_nil {s : EState} (h : s.undo_stack = []) :
    restEq (undo s) s ∧ (undo s).undo_stack = [] := by
  unfold undo
  rw [if_pos h]
  exact ⟨restEq_refl _, h⟩

/-- undo respects agreement on the undo stack and the snapshot fields. -/
theorem undo_congr {a b : EState} (hs : a.undo_stack = b.undo_stack)
    (hr : restEq a b) :
    restEq (undo a) (undo b) ∧ (undo a).undo_stack = (undo b).undo_stack := by
  rcases List.eq_nil_or_concat a.undo_stack with hnil | ⟨l, snap, hdec⟩
  · have hnb : b.undo_stack = [] := by rw [← hs, hnil]
    obtain ⟨ra, ua⟩ := undo_nil hnil
    obtain ⟨rb, ub⟩ := undo_nil hnb
    exact ⟨restEq_trans ra (restEq_trans hr ⟨rb.1.symm, rb.2.1.symm, rb.2.2.1.symm,
      rb.2.2.2.1.symm, rb.2.2.2.2.symm⟩), by rw [ua, ub]⟩
  · rw [List.concat_eq_append] at hdec
    have hdb : b.undo_stack = l ++ [snap] := by rw [← hs, hdec]
    obtain ⟨a1, a2, a3, a4, a5, a6, _, _⟩ := undo_spec a l snap hdec
    obtain ⟨b1, b2, b3, b4, b5, b6, _, _⟩ := undo_spec b l snap hdb
    exact ⟨⟨a1.trans b1.symm, a2.trans b2.symm, a3.trans b3.symm,
      a4.trans b4.symm, a5.trans b5.symm⟩, by rw [a6, b6]⟩

/-- Iterated undo respects agreement on the undo stack and the snapshot
fields. -/
theorem undoN_congr : ∀ (n : Nat) {a b : EState},
    a.undo_stack = b.undo_stack → restEq a b →
    restEq (undoN n a) (undoN n b) ∧
    (undoN n a).undo_stack = (undoN n b).undo_stack := by
  intro n
  induction n with
  | zero => intro a b hs hr; exact ⟨hr, hs⟩
  | succ m ih =>
    intro a b hs hr
    obtain ⟨hr1, hs1⟩ := undo_congr hs hr
    exact ih hs1 hr1

/-- Unfolding undoN from the outside. -/
theorem undoN_succ_outer : ∀ (n : Nat) (s : EState),
    undoN (n + 1) s = undo (undoN n s) := by
  intro n
  induction n with
  | zero => intro s; rfl
  | succ m ih =>
    intro s
    show undoN (m + 1) (undo s) = undo (undoN (m + 1) s)
    rw [ih (undo s)]
    rfl

/-- A singleton command sequence is the command itself. -/
theorem applyCmds_singleton (c : Cmd) (s : EState) :
    applyCmds [c] s = applyCmd c s := by
  cases happly : applyCmd c s <;>
    simp [applyCmds, happly, Bind.bind, Except.bind]

/-- Splitting a command sequence. -/
theorem applyCmds_append : ∀ (l1 l2 : List Cmd) (s : EState),
    applyCmds (l1 ++ l2) s = applyCmds l1 s >>= applyCmds l2 := by
  intro l1
  induction l1 with
  | nil => intro l2 s; simp [applyCmds, Bind.bind, Except.bind]
  | cons c rest ih =>
    intro l2 s
    show applyCmds (c :: (rest ++ l2)) s = _
    simp only [applyCmds]
    cases happly : applyCmd c s with
    | error e => simp [Bind.bind, Except.bind]
    | ok s1 => simp [Bind.bind, Except.bind, ih]

/-- Each command grows the undo stack by at most one entry, so a sequence
grows it by at most its length. -/
theorem cmds_undo_len : ∀ (cmds : List Cmd) (s t : EState),
    applyCmds cmds s = .ok t →
    t.undo_stack.length ≤ s.undo_stack.length + cmds.length := by
  intro cmds
  induction cmds with
  | nil =>
    intro s t h
    simp only [applyCmds, Except.ok.injEq] at h
    subst h
    simp
  | cons c rest ih =>
    intro s t h
    simp only [applyCmds] at h
    obtain ⟨s1, hc, hrest⟩ := except_bind_ok h
    have hlen1 : s1.undo_stack.length ≤ s.undo_stack.length + 1 := by
      rcases cmd_stacks c s s1 hc with ⟨hA, _⟩ | ⟨_, hB, _⟩
      · rw [hA]; exact pushCapped_length_le _ _
      · rw [hB]; omega
    have := ih s1 t hrest
    simp only [List.length_cons]
    omega

/-- Undoing as many times as there were successfully applied edit
commands restores the snapshot fields, provided the run started with an
empty undo stack and held at most 50 commands (so the 50-entry cap never
drops a needed snapshot). -/
theorem undoN_restores : ∀ (cmds : List Cmd), ∀ (s sF : EState),
    s.undo_stack = [] → cmds.length ≤ 50 → applyCmds cmds s = .ok sF →
    restEq (undoN cmds.length sF) s ∧ (undoN cmds.length sF).undo_stack = [] := by
  intro cmds
  induction cmds using List.reverseRecOn with
  | nil =>
    intro s sF h0 hlen happ
    simp only [applyCmds, Except.ok.injEq] at happ
    subst happ
    exact ⟨restEq_refl _, h0⟩
  | append_singleton cmds c ih =>
    intro s sF h0 hlen happ
    rw [applyCmds_append] at happ
    obtain ⟨sMid, hmid, hc⟩ := except_bind_ok happ
    rw [applyCmds_singleton] at hc
    have hlen' : cmds.length + 1 ≤ 50 := by simpa using hlen
    have h0len : s.undo_stack.length = 0 := by rw [h0]; rfl
    have hgrow : sMid.undo_stack.length ≤ cmds.length := by
      have := cmds_undo_len cmds s sMid hmid
      omega
    obtain ⟨ihr, ihs⟩ := ih s sMid h0 (by omega) hmid
    have hn : (cmds ++ [c]).length = cmds.length + 1 := by simp
    rw [hn]
    rcases cmd_stacks c sMid sF hc with ⟨hA1, _⟩ | ⟨hB1, hB2, _⟩
    · have hA1' : sF.undo_stack = sMid.undo_stack ++ [snapOf sMid] := by
        rw [hA1, pushCapped_of_le _ _ (by omega)]
      obtain ⟨u1, u2, u3, u4, u5, u6, _, _⟩ := undo_spec sF sMid.undo_stack (snapOf sMid) hA1'
      have hre : restEq (undo sF) sMid := ⟨u1, u2, u3, u4, u5⟩
      obtain ⟨cr, cs⟩ := undoN_congr cmds.length u6 hre
      show restEq (undoN cmds.length (undo sF)) s ∧
        (undoN cmds.length (undo sF)).undo_stack = []
      exact ⟨restEq_trans cr ihr, by rw [cs]; exact ihs⟩
    · obtain ⟨cr, cs⟩ := undoN_congr (cmds.length + 1) hB2 hB1
      have houter := undoN_succ_outer cmds.length sMid
      obtain ⟨nr, ns⟩ := undo_nil ihs
      refine ⟨restEq_trans cr ?_, ?_⟩
      · rw [houter]
        exact restEq_trans nr ihr
      · rw [cs, houter, ns]

/-- redo immediately after undo restores the pre-undo snapshot fields. -/
theorem redo_undo_restEq (s : EState) (h : s.undo_stack ≠ []) :
    restEq (redo (undo s)) s := by
  rcases List.eq_nil_or_concat s.undo_stack with hnil | ⟨l, snap, hdec⟩
  · exact absurd hnil h
  · rw [List.concat_eq_append] at hdec
    obtain ⟨_, _, _, _, _, _, u7, _⟩ := undo_spec s l snap hdec
    obtain ⟨r1, r2, r3, r4, r5, _, _, _⟩ := redo_spec (undo s) s.redo_stack (snapOf s) u7
    exact ⟨r1, r2, r3, r4, r5⟩

/-- C6 as stated (for arbitrary sequences of edits) is false: 51 character
inserts from the initial state push 51 snapshots, the 50-entry cap drops
the oldest, and 51 undos leave the editor at the state after the first
edit (cursor column 1, one row holding a) rather than the pre-sequence
state (cursor 0, no rows). -/
theorem C6_counterexample :
    c6Run.map (fun t => (undoN 51 t).cursor_x) = Except.ok 1 ∧
    c6Run.map (fun t => (undoN 51 t).rows.map (fun r => r.content)) =
      Except.ok [['a']] ∧
    initState.cursor_x = 0 ∧ initState.rows = [] :=
  ⟨rfl, rfl, rfl, rfl⟩

/-- C6 amended: for any sequence of at most 50 edit commands applied from
a state with empty undo history, undoing once per command restores the
document row contents, the cursor x/y and the row/col offsets to their
exact pre-sequence values; and redo immediately after an undo restores
the pre-undo values of those fields. -/
theorem C6_amended_undo_redo_symmetry :
    (∀ (cmds : List Cmd) (s sF : EState), s.undo_stack = [] → cmds.length ≤ 50 →
      applyCmds cmds s = .ok sF → restEq (undoN cmds.length sF) s) ∧
    (∀ s : EState, s.undo_stack ≠ [] → restEq (redo (undo s)) s) :=
  ⟨fun cmds s sF h0 hl ha => (undoN_restores cmds s sF h0 hl ha).1, redo_undo_restEq⟩





/-- Witness for C6 (amended): one insert then one undo restores the
initial snapshot fields, and redo after undo restores them again. -/
theorem C6_amended_witness :
    restEq (undoN 1 c6WitState) initState ∧
    restEq (redo (undo c6RedoState)) c6RedoState :=
  ⟨C6_amended_undo_redo_symmetry.1 [Cmd.insertChar 'a'] initState c6WitState rfl
      (by decide) rfl,
   C6_amended_undo_redo_symmetry.2 c6RedoState (by decide)⟩

/-- Setting an element then taking one past it splits off the new value. -/
theorem take_succ_set : ∀ (l : List Nat) (i : Nat) (v : Nat), i < l.length →
    (l.set i v).take (i + 1) = l.take i ++ [v] := by
  intro l
  induction l with
  | nil => intro i v h; simp at h
  | cons x xs ih =>
    intro i v h
    cases i with
    | zero => simp
    | succ ii =>
      simp only [List.set_cons_succ, List.take_succ_cons, List.cons_append]
      rw [ih ii v (by simpa using h)]

/-- The scanner, entered inside a block comment on a line that never
contains the end marker, classifies everything from the current position
onward as block-comment and carries the open flag out. -/
theorem scanLoop_in_comment (line scs mcs mce : List Char) (kws : List (List Char))
    (hmce : mce ≠ [])
    (hnoc : ∀ j, startsWithAt line mce j = false) :
    ∀ (fuel i : Nat) (hl : List Nat) (ps : Bool), line.length ≤ i + fuel →
    hl.length = line.length →
    scanLoop line kws scs mcs mce fuel hl i ps none true =
      (hl.take i ++ List.replicate (line.length - i) HL_MLCOMMENT, true) := by
  intro fuel
  induction fuel with
  | zero =>
    intro i hl ps hlen hhl
    rw [scanLoop]
    rw [List.take_of_length_le (by omega)]
    rw [show line.length - i = 0 by omega]
    simp
  | succ f ih =>
    intro i hl ps hlen hhl
    rw [scanLoop]
    by_cases hi : i < line.length
    · rw [if_pos hi]
      rw [if_neg (by simp : ¬ (scs ≠ [] ∧ (none : Option Char) = none ∧ true = false ∧
        startsWithAt line scs i = true))]
      rw [if_pos (rfl : true = true)]
      rw [if_neg (by simp [hnoc i] : ¬ (mce ≠ [] ∧ startsWithAt line mce i = true))]
      rw [ih (i + 1) (hl.set i HL_MLCOMMENT) false (by omega) (by simpa using hhl)]
      rw [take_succ_set hl i HL_MLCOMMENT (by omega)]
      rw [show line.length - i = (line.length - (i + 1)) + 1 by omega]
      rw [List.replicate_succ]
      simp
    · rw [if_neg hi]
      rw [List.take_of_length_le (by omega)]
      rw [show line.length - i = 0 by omega]
      simp

/-- If a marker does not occur as a substring, it starts at no position. -/
theorem not_contains_startsWith (l sub : List Char) (hne : sub ≠ [])
    (h : containsSub l sub = false) : ∀ j, startsWithAt l sub j = false := by
  intro j
  by_cases hj : j ≤ l.length
  · simp only [containsSub, List.any_eq_false, List.mem_range] at h
    simpa using h j (by omega)
  · simp only [startsWithAt]
    rw [List.drop_eq_nil_of_le (by omega)]
    simp only [List.take_nil]
    exact decide_eq_false (fun hcontra => hne hcontra.symm)

/-- A line carried into a C block comment and containing no end marker is
highlighted entirely as block-comment, and carries the flag out. -/
theorem ghl_in_comment (line : List Char) (hnoc : containsSub line (sl "*/") = false) :
    get_highlighting line (some C_LANG) true =
      (List.replicate line.length HL_MLCOMMENT, true) := by
  unfold get_highlighting
  have h := scanLoop_in_comment line C_LANG.singleline_comment_start
    C_LANG.multiline_comment_start C_LANG.multiline_comment_end C_LANG.keywords (by decide)
    (not_contains_startsWith line C_LANG.multiline_comment_end (by decide) hnoc)
    (line.length + 1) 0 (List.replicate line.length HL_NORMAL) true (by omega) (by simp)
  simpa using h

/-- Loading the two-line C7 document: the first row is the concrete
comment opener, and the second row is classified entirely block-comment
with the carry flag set. -/
theorem c7_doc_rows (l2 : List Char)
    (hnoc : containsSub (renderContent l2) (sl "*/") = false) :
    (docStateFor (some C_LANG) [sl "/* open", l2]).rows = [c7Row1, c7Row2 l2] ∧
    (docStateFor (some C_LANG) [sl "/* open", l2]).total_rows = 2 := by
  have key : docStateFor (some C_LANG) [sl "/* open", l2] =
      insert_editor_row c7S1 c7S1.total_rows l2 := rfl
  have h1 : c7S1.rows = [c7Row1] := by decide
  have ht : c7S1.total_rows = 1 := by decide
  rw [key]
  have hcl : c7S1.current_lang = some C_LANG := by decide
  simp +decide [insert_editor_row, ht, h1, hcl, newRowInit]
  rw [show prevOpenAt [c7Row1] 1 = true from by decide]
  rw [ghl_in_comment (renderContent l2) hnoc]
  simp +decide [listInsertAt, bumpUp, c7Row2]

/-- Appending the closing marker to the first C7 row re-runs the
highlighter on row 0 (carry now closed) and propagates to row 1, whose
highlight reverts to its plain classification. -/
theorem c7_after_edit (l2 : List Char)
    (hplain : (get_highlighting (renderContent l2) (some C_LANG) false).1 =
      List.replicate (renderContent l2).length HL_NORMAL) :
    ((rowAppendString (some C_LANG) 2 [c7Row1, c7Row2 l2] 0 (sl " */"))[1]?).map
        (fun r => r.highlight) =
      some (List.replicate (renderContent l2).length HL_NORMAL) := by
  have hc1 : c7Row1 =
      { index := 0, content := ['/', '*', ' ', 'o', 'p', 'e', 'n'], content_size := 7,
        rendered_content := ['/', '*', ' ', 'o', 'p', 'e', 'n'], rendered_size := 7,
        highlight := [3, 3, 3, 3, 3, 3, 3], open_comment := true } := by decide
  have hsl : sl " */" = [' ', '*', '/'] := by decide
  have hrc : renderContent ['/', '*', ' ', 'o', 'p', 'e', 'n', ' ', '*', '/'] =
      ['/', '*', ' ', 'o', 'p', 'e', 'n', ' ', '*', '/'] := by decide
  have hghl1 : get_highlighting ['/', '*', ' ', 'o', 'p', 'e', 'n', ' ', '*', '/']
      (some C_LANG) false = ([3, 3, 3, 3, 3, 3, 3, 3, 3, 3], false) := by decide
  have hopen : hasOpenComment
      { index := 0, content := ['/', '*', ' ', 'o', 'p', 'e', 'n', ' ', '*', '/'],
        content_size := 10,
        rendered_content := ['/', '*', ' ', 'o', 'p', 'e', 'n', ' ', '*', '/'],
        rendered_size := 10, highlight := [3, 3, 3, 3, 3, 3, 3, 3, 3, 3],
        open_comment := true } = false := by decide
  simp +decide [rowAppendString, rowUpdateRendered, updateHlAt, updateHlAtF, prevOpenAt,
    c7Row2, hc1, hsl, hrc, hghl1, hopen, hplain]

/-- C7: under the C language (which has block-comment markers), in the
two-line document whose first line opens an unterminated block comment
and whose second line is plain non-empty text (formalised as: it contains
no end marker and its stand-alone highlight is entirely normal), every
character of the second line is classified block-comment; after an edit
appending the closing marker to the first line, the second line's
characters revert to their normal classification. -/
theorem C7_block_comment_propagation (l2 : List Char) (hne : l2 ≠ [])
    (hnoc : containsSub (renderContent l2) (sl "*/") = false)
    (hplain : (get_highlighting (renderContent l2) (some C_LANG) false).1 =
      List.replicate (renderContent l2).length HL_NORMAL) :
    ((docStateFor (some C_LANG) [sl "/* open", l2]).rows[1]?).map (fun r => r.highlight) =
      some (List.replicate (renderContent l2).length HL_MLCOMMENT) ∧
    ((rowAppendString (some C_LANG)
        (docStateFor (some C_LANG) [sl "/* open", l2]).total_rows
        (docStateFor (some C_LANG) [sl "/* open", l2]).rows 0 (sl " */"))[1]?).map
        (fun r => r.highlight) =
      some (List.replicate (renderContent l2).length HL_NORMAL) := by
  obtain ⟨hr, ht⟩ := c7_doc_rows l2 hnoc
  rw [hr, ht]
  constructor
  · simp [c7Row2]
  · exact c7_after_edit l2 hplain

/-- Witness for C7 with the concrete plain second line hello. -/
theorem C7_block_comment_propagation_witness :
    ((docStateFor (some C_LANG) [sl "/* open", sl "hello"]).rows[1]?).map
        (fun r => r.highlight) =
      some (List.replicate (renderContent (sl "hello")).length HL_MLCOMMENT) ∧
    ((rowAppendString (some C_LANG)
        (docStateFor (some C_LANG) [sl "/* open", sl "hello"]).total_rows
        (docStateFor (some C_LANG) [sl "/* open", sl "hello"]).rows 0 (sl " */"))[1]?).map
        (fun r => r.highlight) =
      some (List.replicate (renderContent (sl "hello")).length HL_NORMAL) :=
  C7_block_comment_propagation (sl "hello") (by decide) (by decide) (by decide)

end NovaEdit
